import Mathlib

/-!
# Fever card game — verification of the game-state machine

Shallow embedding of the core game logic of the Fever repository
(`src/services/gameService.ts`, `src/utils/gameUtils.ts`,
`src/types/game.ts`) together with theorems settling the frozen claims
about that logic.

The Firestore persistence layer (flattening of 2-D grids into arrays of
`{card,row,col}` records and back, `serverTimestamp`, `lastAction`
bookkeeping) is elided: operations are modelled directly as pure
functions on the logical `GameState` document of `types/game.ts`, which
is exactly the state the service code computes in memory before its
single write.  `normalizeCard`/`toFirestoreCard` are identities on
well-formed cards and are likewise elided.  A validation error that the
service raises by throwing inside a `runTransaction` callback aborts
the transaction before any `transaction.update`, so it is modelled as
`Except.error` carrying no state.
-/

set_option maxRecDepth 4000

namespace Fever

/-- `Suit` from `types/game.ts`. -/
inductive Suit
  | hearts
  | diamonds
  | clubs
  | spades
deriving DecidableEq

/-- `Rank` from `types/game.ts`: A, 2–10, J, Q, K, joker. -/
inductive Rank
  | A
  | r2
  | r3
  | r4
  | r5
  | r6
  | r7
  | r8
  | r9
  | r10
  | J
  | Q
  | K
  | joker
deriving DecidableEq

/-- `SpecialAbility` from `types/game.ts`. -/
inductive SpecialAbility
  | peekSelf
  | flipOpponent
  | swap
  | doubleTurn
deriving DecidableEq

/-- `Card` from `types/game.ts` (`id` is an opaque uuid string). -/
structure Card where
  id : String
  suit : Option Suit
  rank : Rank
  value : Int
  isFaceUp : Bool
  specialAbility : Option SpecialAbility
deriving DecidableEq

/-- A player's grid: `rows × 3` cells, each `Card`-or-empty. -/
abbrev Grid := List (List (Option Card))

/-- `Player` from `types/game.ts`. -/
structure Player where
  id : String
  name : String
  email : String
  cards : Grid
  score : Int
  isHost : Bool
  isCurrentTurn : Bool
  hasCalledStop : Bool
deriving DecidableEq

/-- `GameStatus` from `types/game.ts`. -/
inductive GameStatus
  | waiting
  | starting
  | playing
  | awaitingAbilityTarget
  | ending
  | finished
deriving DecidableEq

/-- The `activeAbility` record of `GameState`. -/
structure ActiveAbility where
  playerId : String
  ability : SpecialAbility
  cardId : String
deriving DecidableEq

/-- The logical `GameState` document of `types/game.ts` (timestamps and
`lastAction` bookkeeping elided). -/
structure GameState where
  players : List Player
  currentPlayerIndex : Nat
  deck : List Card
  discardPile : List Card
  gameMode : Nat
  status : GameStatus
  activeAbility : Option ActiveAbility
  winner : Option String
deriving DecidableEq

/-- A `{row, col}` grid position.  Coordinates are integers because the
service validates against negative input. -/
structure Position where
  row : Int
  col : Int
deriving DecidableEq

/-! ## Card & Deck model (`gameUtils.ts`) -/

/-- `getCardValue` from `gameUtils.ts`: A→1, joker→−1, 10→0, J/Q/K→15,
numeric ranks→face value (`parseInt`). -/
def getCardValue : Rank → Int
  | Rank.A => 1
  | Rank.joker => -1
  | Rank.r10 => 0
  | Rank.J => 15
  | Rank.Q => 15
  | Rank.K => 15
  | Rank.r2 => 2
  | Rank.r3 => 3
  | Rank.r4 => 4
  | Rank.r5 => 5
  | Rank.r6 => 6
  | Rank.r7 => 7
  | Rank.r8 => 8
  | Rank.r9 => 9

/-- The `specialAbilityCards` table of `gameUtils.ts`, as a function of
rank (the table maps every suit of 7/Q/J/K to the same ability):
7→flip-opponent, Q→swap, J→double-turn, K→peek-self. -/
def rankAbility : Rank → Option SpecialAbility
  | Rank.r7 => some SpecialAbility.flipOpponent
  | Rank.Q => some SpecialAbility.swap
  | Rank.J => some SpecialAbility.doubleTurn
  | Rank.K => some SpecialAbility.peekSelf
  | _ => none

/-- `calculatePlayerScore` from `gameUtils.ts`: the loop
`for row; for card in row; if (card) score += card.value`. -/
def calculatePlayerScore (cards : Grid) : Int :=
  (cards.map fun row =>
    (row.map fun cell =>
      match cell with
      | some card => card.value
      | none => 0).sum).sum

/-! ## Grid cell access helpers

`cards[row][col]` reads and writes, with JavaScript's out-of-bounds
reads yielding "no card".  The service always bounds-checks before
writing, so `List.set`'s silent out-of-range no-op is never reached on
the paths modelled here. -/

/-- Read the cell `cards[r][c]` (`none` when out of range or empty). -/
def cellAt (cards : Grid) (r c : Nat) : Option Card :=
  (((cards.get? r).getD []).get? c).getD none

/-- Write the cell `cards[r][c] := v`. -/
def setCellAt (cards : Grid) (r c : Nat) (v : Option Card) : Grid :=
  cards.set r (((cards.get? r).getD []).set c v)

/-- Read a cell at a `Position` with integer coordinates. -/
def cellAtPos (cards : Grid) (pos : Position) : Option Card :=
  cellAt cards pos.row.toNat pos.col.toNat

/-! ## Deal engine (`dealCards` in `gameUtils.ts`)

The source walks `row = 0..rows-1`, `col = 0..2` per player, taking
`deck[deckIndex]` when available (the index advances only on a
successful take; exhausted decks fill the remaining cells with `null`).
Bottom-row cards (`row === rows - 1`) have `isFaceUp` explicitly set to
`false`; other rows keep the deck card's face state. -/

/-- One grid row of the deal loop: `cols` cells starting at deck index
`di`; returns the row together with the advanced deck index. -/
def dealRowCells (deck : List Card) (isBottom : Bool) :
    Nat → Nat → List (Option Card) × Nat
  | di, 0 => ([], di)
  | di, cols + 1 =>
    match deck.get? di with
    | some card =>
      let c := if isBottom then { card with isFaceUp := false } else card
      let rest := dealRowCells deck isBottom (di + 1) cols
      (some c :: rest.1, rest.2)
    | none =>
      let rest := dealRowCells deck isBottom di cols
      (none :: rest.1, rest.2)

/-- The per-player row loop: deals `k` remaining rows of 3 cells; the
last row dealt (`k = 1`, i.e. `row === rows - 1`) is the bottom row. -/
def dealHandRows (deck : List Card) : Nat → Nat → Grid × Nat
  | di, 0 => ([], di)
  | di, k + 1 =>
    let row := dealRowCells deck (k == 0) di 3
    let rest := dealHandRows deck row.2 k
    (row.1 :: rest.1, rest.2)

/-- The per-player loop of `dealCards`: each player in order receives
`rows` rows, the deck index threading through sequentially. -/
def dealPlayersLoop (deck : List Card) (rows : Nat) :
    List Player → Nat → List (String × Grid) × Nat
  | [], di => ([], di)
  | p :: ps, di =>
    let hand := dealHandRows deck di rows
    let rest := dealPlayersLoop deck rows ps hand.2
    ((p.id, hand.1) :: rest.1, rest.2)

/-- `dealCards` from `gameUtils.ts`: `rows = gameMode / 3`; returns the
remaining deck (`deck.slice(deckIndex)`) and the map from player id to
grid (modelled as an association list in player order). -/
def dealCards (deck : List Card) (players : List Player) (gameMode : Nat) :
    List Card × List (String × Grid) :=
  let rows := gameMode / 3
  let res := dealPlayersLoop deck rows players 0
  (deck.drop res.2, res.1)

/-! ## Turn / ability state machine (`gameService.ts`) -/

/-- The `newPlayers.forEach((p, i) => { p.isCurrentTurn = i === idx })`
recomputation of turn flags, with `i` starting at `n`. -/
def setTurnFlagsFrom (n idx : Nat) : List Player → List Player
  | [] => []
  | p :: ps =>
    { p with isCurrentTurn := n == idx } :: setTurnFlagsFrom (n + 1) idx ps

/-- The shared discard decision of `discardDrawnCard` /
`discardAndReplace` (keyed off the card that lands on the discard
pile): `double-turn` keeps everything, any other ability enters
`awaiting-ability-target` recording `{playerId, ability, cardId}`, no
ability advances `currentPlayerIndex` by one mod player count.
Returns `(status, activeAbility, currentPlayerIndex)`. -/
def discardDecision (g : GameState) (playerId : String) (discarded : Card) :
    GameStatus × Option ActiveAbility × Nat :=
  match discarded.specialAbility with
  | some SpecialAbility.doubleTurn =>
    (g.status, g.activeAbility, g.currentPlayerIndex)
  | some ab =>
    (GameStatus.awaitingAbilityTarget,
      some { playerId := playerId, ability := ab, cardId := discarded.id },
      g.currentPlayerIndex)
  | none =>
    (g.status, g.activeAbility, (g.currentPlayerIndex + 1) % g.players.length)

/-- `discardDrawnCard` from `gameService.ts` (lines 546–604): the held
card is forced face-up onto the discard-pile head, the discard decision
is applied, and every player's `isCurrentTurn` flag is recomputed
against the (possibly unchanged) current-player index. -/
def discardDrawnCard (g : GameState) (playerId : String) (cardToDiscard : Card) :
    GameState :=
  let discardedCard := { cardToDiscard with isFaceUp := true }
  let newDiscardPile := discardedCard :: g.discardPile
  let dec := discardDecision g playerId discardedCard
  let newPlayers := setTurnFlagsFrom 0 dec.2.2 g.players
  { g with
    players := newPlayers
    discardPile := newDiscardPile
    currentPlayerIndex := dec.2.2
    status := dec.1
    activeAbility := dec.2.1 }

/-- Validation errors of `discardAndReplace` (the strings thrown inside
the transaction: "Player not found!", "Invalid replace position",
"Cannot replace an empty card slot."). -/
inductive ReplaceError
  | PlayerNotFound
  | InvalidPosition
  | EmptySlot
deriving DecidableEq

/-- In-place update of `players[i]` (`none` lookups leave the list
unchanged; the service only reaches this after a successful index
lookup). -/
def modifyPlayerAt (players : List Player) (i : Nat) (f : Player → Player) :
    List Player :=
  match players.get? i with
  | some p => players.set i (f p)
  | none => players

/-- The success path of `discardAndReplace` (the replaced card
`replacedCard` sits at `pos` of `players[playerIndex]`): the held card
takes the cell face-down, the replaced card moves face-up to the
discard-pile head, and the discard decision is keyed off the
**replaced** card. -/
def applyReplace (g : GameState) (playerId : String) (newCardFromDraw : Card)
    (pos : Position) (playerIndex : Nat) (replacedCard : Card) : GameState :=
  let newPlayers0 := modifyPlayerAt g.players playerIndex fun p =>
    { p with cards := (setCellAt p.cards pos.row.toNat pos.col.toNat
        (some { newCardFromDraw with isFaceUp := false })) }
  let cardToDiscard := { replacedCard with isFaceUp := true }
  let newDiscardPile := cardToDiscard :: g.discardPile
  let dec := discardDecision g playerId cardToDiscard
  let newPlayers := setTurnFlagsFrom 0 dec.2.2 newPlayers0
  { g with
    players := newPlayers
    discardPile := newDiscardPile
    currentPlayerIndex := dec.2.2
    status := dec.1
    activeAbility := dec.2.1 }

/-- `discardAndReplace` from `gameService.ts` (lines 471–544): bounds
and occupancy are validated against the actor's grid; on success see
`applyReplace`.  A thrown validation error aborts the transaction,
hence `Except.error`. -/
def discardAndReplace (g : GameState) (playerId : String)
    (newCardFromDraw : Card) (pos : Position) : Except ReplaceError GameState :=
  match g.players.findIdx? (fun p => p.id == playerId) with
  | none => Except.error ReplaceError.PlayerNotFound
  | some playerIndex =>
    match g.players.get? playerIndex with
    | none => Except.error ReplaceError.PlayerNotFound
    | some player =>
      let rows := player.cards.length
      if pos.row < 0 ∨ (rows : Int) ≤ pos.row ∨ pos.col < 0 ∨ (3 : Int) ≤ pos.col then
        Except.error ReplaceError.InvalidPosition
      else
        match cellAtPos player.cards pos with
        | none => Except.error ReplaceError.EmptySlot
        | some replacedCard =>
          Except.ok (applyReplace g playerId newCardFromDraw pos playerIndex replacedCard)

/-- The document state after a `discardAndReplace` call: a validation
error aborts the Firestore transaction before its single
`transaction.update`, so the document is left exactly as read. -/
def discardAndReplaceDoc (g : GameState) (playerId : String)
    (newCardFromDraw : Card) (pos : Position) : GameState :=
  match discardAndReplace g playerId newCardFromDraw pos with
  | Except.ok g' => g'
  | Except.error _ => g

/-! ## Ability resolution (`executeAbility`, `gameService.ts` 606–698)

Both effect branches guard on the findIndex result and on grid bounds
and silently skip the effect when the guard fails; the state reset and
turn advance at the end run unconditionally.  Note the source never
compares `actingPlayerId` with `activeAbility.playerId`, never checks
`status`, and takes the ability to execute from the caller. -/

/-- The targets record passed to `executeAbility`. -/
structure AbilityTargets where
  ownCardPosition : Option Position
  opponentPlayerId : Option String
  opponentCardPosition : Option Position

/-- `row >= 0 && row < cards.length && col >= 0 && col < 3`. -/
def posInBounds (cards : Grid) (pos : Position) : Prop :=
  0 ≤ pos.row ∧ pos.row < (cards.length : Int) ∧ 0 ≤ pos.col ∧ pos.col < 3

instance (cards : Grid) (pos : Position) : Decidable (posInBounds cards pos) := by
  unfold posInBounds
  infer_instance

/-- The `flip-opponent` effect: find the opponent, and when the target
cell is in bounds and occupied, set that card face-up. -/
def applyFlip (players : List Player) (oppId : String) (pos : Position) :
    List Player :=
  match players.findIdx? (fun p => p.id == oppId) with
  | none => players
  | some opponentIndex =>
    modifyPlayerAt players opponentIndex fun p =>
      if posInBounds p.cards pos then
        match cellAtPos p.cards pos with
        | some card =>
          { p with cards := (setCellAt p.cards pos.row.toNat pos.col.toNat
              (some { card with isFaceUp := true })) }
        | none => p
      else p

/-- The `swap` effect: find both players, and when both positions are
in bounds, exchange the two cells' contents (face states travel with
the cards; the writes happen sequentially as in the source, so a
self-swap behaves identically). -/
def applySwap (players : List Player) (actingPlayerId oppId : String)
    (ownPos oppPos : Position) : List Player :=
  match players.findIdx? (fun p => p.id == actingPlayerId) with
  | none => players
  | some playerIndex =>
    match players.findIdx? (fun p => p.id == oppId) with
    | none => players
    | some opponentIndex =>
      match players.get? playerIndex with
      | none => players
      | some player =>
        match players.get? opponentIndex with
        | none => players
        | some opponent =>
          if posInBounds player.cards ownPos ∧ posInBounds opponent.cards oppPos then
            let ownCard := cellAtPos player.cards ownPos
            let opponentCard := cellAtPos opponent.cards oppPos
            let players1 := modifyPlayerAt players playerIndex fun p =>
              { p with cards := setCellAt p.cards ownPos.row.toNat ownPos.col.toNat opponentCard }
            modifyPlayerAt players1 opponentIndex fun p =>
              { p with cards := setCellAt p.cards oppPos.row.toNat oppPos.col.toNat ownCard }
          else players

/-- The two guarded effect blocks of `executeAbility` in sequence: the
`flip-opponent` block fires only for that ability with both opponent
targets present, the `swap` block only for `swap` with all three
targets present; any other combination leaves the players as they are
(`peek-self` has no server-side board effect; `double-turn` never
reaches this path but would also fall through both guards). -/
def abilityEffectPlayers (players : List Player) (ability : SpecialAbility)
    (actingPlayerId : String) (targets : AbilityTargets) : List Player :=
  let players1 :=
    match ability, targets.opponentPlayerId, targets.opponentCardPosition with
    | SpecialAbility.flipOpponent, some oppId, some pos => applyFlip players oppId pos
    | _, _, _ => players
  match ability, targets.ownCardPosition, targets.opponentPlayerId,
      targets.opponentCardPosition with
  | SpecialAbility.swap, some ownPos, some oppId, some oppPos =>
    applySwap players1 actingPlayerId oppId ownPos oppPos
  | _, _, _, _ => players1

/-- `executeAbility` from `gameService.ts`: apply the guarded board
effect (`abilityEffectPlayers`), then unconditionally return to
`playing`, clear `activeAbility`, advance `currentPlayerIndex` by one
mod player count and recompute the turn flags. -/
def executeAbility (g : GameState) (ability : SpecialAbility)
    (actingPlayerId : String) (targets : AbilityTargets) : GameState :=
  let players2 := abilityEffectPlayers g.players ability actingPlayerId targets
  let nextIndex := (g.currentPlayerIndex + 1) % players2.length
  let newPlayers := setTurnFlagsFrom 0 nextIndex players2
  { g with
    players := newPlayers
    status := GameStatus.playing
    activeAbility := none
    currentPlayerIndex := nextIndex }

/-! ## Plain read-then-write operations

`drawFromDeck` (440–469) and `pickFromDiscard` (700–723) are **not**
transactions in the source: they `getDoc` a snapshot, compute, and
`updateDoc` unconditionally.  Each is modelled as the pure computation
from the snapshot it read to the result returned to the caller and the
document it writes back (`none` = empty pile, no write). -/

/-- `drawFromDeck`: pops the deck head of the snapshot it read. -/
def drawFromDeckCompute (g : GameState) : Option (Card × GameState) :=
  match g.deck with
  | [] => none
  | drawnCard :: rest => some (drawnCard, { g with deck := rest })

/-- `pickFromDiscard`: pops the discard-pile head of the snapshot. -/
def pickFromDiscardCompute (g : GameState) : Option (Card × GameState) :=
  match g.discardPile with
  | [] => none
  | pickedCard :: rest => some (pickedCard, { g with discardPile := rest })

/-- `recallCards` (725–778): for each listed position in order, an
occupied cell is vacated and its card (forced face-up) collected; the
collected cards are unshifted onto the discard pile.  Turn order,
status and flags are untouched. -/
def recallCards (g : GameState) (playerId : String)
    (positions : List Position) : GameState :=
  match g.players.findIdx? (fun p => p.id == playerId) with
  | none => g
  | some playerIndex =>
    match g.players.get? playerIndex with
    | none => g
    | some player =>
      let res := positions.foldl
        (fun acc pos =>
          match cellAtPos acc.1 pos with
          | some card =>
            (setCellAt acc.1 pos.row.toNat pos.col.toNat none,
              acc.2 ++ [{ card with isFaceUp := true }])
          | none => acc)
        (player.cards, ([] : List Card))
      let newPlayers := g.players.set playerIndex { player with cards := res.1 }
      { g with players := newPlayers, discardPile := res.2 ++ g.discardPile }

/-- `callStop` (780–820): sets the caller's `hasCalledStop` and moves
the game to `ending` (the delayed `endGame` is a separate step). -/
def callStop (g : GameState) (playerId : String) : GameState :=
  match g.players.findIdx? (fun p => p.id == playerId) with
  | none => g
  | some playerIndex =>
    match g.players.get? playerIndex with
    | none => g
    | some player =>
      { g with
        players := g.players.set playerIndex { player with hasCalledStop := true }
        status := GameStatus.ending }

/-! ## End game (`endGame`, `gameService.ts` 822–863) -/

/-- Reveal every card of a grid. -/
def revealGrid (cards : Grid) : Grid :=
  cards.map fun row => row.map fun cell =>
    cell.map fun c => { c with isFaceUp := true }

/-- The per-player part of `endGame`: reveal all cards, then
`player.score = calculatePlayerScore(player.cards)`. -/
def endPlayer (p : Player) : Player :=
  let revealed := revealGrid p.cards
  { p with cards := revealed, score := calculatePlayerScore revealed }

/-- `endGame`'s loop over the players. -/
def endGamePlayers (players : List Player) : List Player :=
  players.map endPlayer

/-- The source's winner selection,
`players.reduce((prev, current) => prev.score < current.score ? prev : current)`:
`reduce` without an initial value starts from the first element (and
throws on an empty list, modelled as `none`). -/
def pickWinner : List Player → Option Player
  | [] => none
  | p :: ps =>
    some (ps.foldl
      (fun prev current => if prev.score < current.score then prev else current) p)

/-- The accumulator view of `pickWinner`'s reduce (for reasoning by
induction over the tail). -/
def winnerFold (p : Player) (ps : List Player) : Player :=
  ps.foldl (fun prev current => if prev.score < current.score then prev else current) p

/-- `endGame`: reveal everything, compute scores, set
`status = finished` and persist `winner = <selected player>.id`. -/
def endGame (g : GameState) : GameState :=
  let newPlayers := endGamePlayers g.players
  { g with
    players := newPlayers
    status := GameStatus.finished
    winner := (pickWinner newPlayers).map Player.id }

/-! ## Game creation (`startGame`, `gameService.ts` 289–373) -/

/-- The `{id, name, email}` records `startGame` receives. -/
structure PlayerInfo where
  id : String
  name : String
  email : String

/-- The `players.map((p, index) => ...)` initialisation: index 0 gets
the turn, the host flag compares against the room's host id. -/
def buildPlayers (hostId : String) : Nat → List PlayerInfo → List Player
  | _, [] => []
  | i, info :: rest =>
    { id := info.id
      name := info.name
      email := info.email
      cards := []
      score := 0
      isHost := info.id == hostId
      isCurrentTurn := i == 0
      hasCalledStop := false } :: buildPlayers hostId (i + 1) rest

/-- `startGame`: build the players, deal (`numberOfDecks` and the
shuffle are external to this model — the deck is a parameter), assign
each player the grid keyed by their id, and create the document with
`currentPlayerIndex = 0`, empty discard pile and `status = starting`. -/
def startGame (infos : List PlayerInfo) (hostId : String) (deck : List Card)
    (gameMode : Nat) : GameState :=
  let gamePlayers := buildPlayers hostId 0 infos
  let dealt := dealCards deck gamePlayers gameMode
  let players := gamePlayers.map fun p =>
    { p with cards := ((dealt.2.lookup p.id).getD []) }
  { players := players
    currentPlayerIndex := 0
    deck := dealt.1
    discardPile := []
    gameMode := gameMode
    status := GameStatus.starting
    activeAbility := none
    winner := none }

/-- The deferred `starting → playing` transition (the `setTimeout` in
`startGame` updates only `status`). -/
def setPlaying (g : GameState) : GameState :=
  { g with status := GameStatus.playing }

/-! ## Reachability

One step per mutating write the service performs against a game
document. -/

/-- The transition relation of the game-state machine. -/
inductive Step : GameState → GameState → Prop
  | startPlaying (g : GameState) : Step g (setPlaying g)
  | draw (g : GameState) (c : Card) (g' : GameState) :
      drawFromDeckCompute g = some (c, g') → Step g g'
  | pick (g : GameState) (c : Card) (g' : GameState) :
      pickFromDiscardCompute g = some (c, g') → Step g g'
  | discard (g : GameState) (pid : String) (card : Card) :
      Step g (discardDrawnCard g pid card)
  | replace (g : GameState) (pid : String) (card : Card) (pos : Position)
      (g' : GameState) :
      discardAndReplace g pid card pos = Except.ok g' → Step g g'
  | ability (g : GameState) (ab : SpecialAbility) (pid : String)
      (t : AbilityTargets) : Step g (executeAbility g ab pid t)
  | recallAct (g : GameState) (pid : String) (ps : List Position) :
      Step g (recallCards g pid ps)
  | stop (g : GameState) (pid : String) : Step g (callStop g pid)
  | finish (g : GameState) : Step g (endGame g)

/-- States reachable from a freshly created game (a created room always
contains at least its host, so the player list is nonempty). -/
inductive Reachable : GameState → Prop
  | init (infos : List PlayerInfo) (hostId : String) (deck : List Card)
      (gameMode : Nat) : infos ≠ [] →
      Reachable (startGame infos hostId deck gameMode)
  | step (g g' : GameState) : Reachable g → Step g g' → Reachable g'

/-- The turn-flag invariant: `currentPlayerIndex` addresses a real
player and every player's `isCurrentTurn` flag marks exactly the
player at that index. -/
def TurnInv (g : GameState) : Prop :=
  g.currentPlayerIndex < g.players.length ∧
  ∀ j p, g.players.get? j = some p →
    p.isCurrentTurn = (j == g.currentPlayerIndex)

/-! ## Concrete fixtures used by claim witnesses and counterexamples -/

/-- A plain numeric card (no ability). -/
def heldPlain : Card :=
  { id := "held-3h", suit := some Suit.hearts, rank := Rank.r3, value := 3,
    isFaceUp := false, specialAbility := none }

/-- A queen (swap ability). -/
def queenSpades : Card :=
  { id := "q-spades", suit := some Suit.spades, rank := Rank.Q, value := 15,
    isFaceUp := false, specialAbility := some SpecialAbility.swap }

/-- A♠ (value 1). -/
def aceSpades : Card :=
  { id := "a-spades", suit := some Suit.spades, rank := Rank.A, value := 1,
    isFaceUp := false, specialAbility := none }

/-- 10♥ (value 0). -/
def tenHearts : Card :=
  { id := "t-hearts", suit := some Suit.hearts, rank := Rank.r10, value := 0,
    isFaceUp := false, specialAbility := none }

/-- K♣ (value 15, peek-self). -/
def kingClubs : Card :=
  { id := "k-clubs", suit := some Suit.clubs, rank := Rank.K, value := 15,
    isFaceUp := false, specialAbility := some SpecialAbility.peekSelf }

/-- A joker (value −1). -/
def jokerCard : Card :=
  { id := "joker-1", suit := none, rank := Rank.joker, value := -1,
    isFaceUp := false, specialAbility := none }

/-- First player of the two-player fixture (current turn). -/
def playerOne : Player :=
  { id := "p1", name := "Alice", email := "a@x", cards := [[some aceSpades, some tenHearts, none]],
    score := 0, isHost := true, isCurrentTurn := true, hasCalledStop := false }

/-- Second player of the two-player fixture. -/
def playerTwo : Player :=
  { id := "p2", name := "Bea", email := "b@x", cards := [[some kingClubs, none, some jokerCard]],
    score := 0, isHost := false, isCurrentTurn := false, hasCalledStop := false }

/-- A two-player game in the `playing` phase. -/
def gPlaying : GameState :=
  { players := [playerOne, playerTwo], currentPlayerIndex := 0, deck := [queenSpades],
    discardPile := [], gameMode := 3, status := GameStatus.playing,
    activeAbility := none, winner := none }

/-- A face-up 7♦ (flip-opponent) sitting on the discard pile. -/
def sevenDiamonds : Card :=
  { id := "seven-d", suit := some Suit.diamonds, rank := Rank.r7, value := 7,
    isFaceUp := true, specialAbility := some SpecialAbility.flipOpponent }

/-- The pending flip-opponent ability owned by `p1`. -/
def pendingFlip : ActiveAbility :=
  { playerId := "p1", ability := SpecialAbility.flipOpponent, cardId := "seven-d" }

/-- The same game waiting for `p1` to resolve a `flip-opponent` ability. -/
def gAwaiting : GameState :=
  { gPlaying with
    status := GameStatus.awaitingAbilityTarget
    discardPile := [sevenDiamonds]
    activeAbility := some pendingFlip }

/-- A one-player room input (C3 witness). -/
def infoSolo : PlayerInfo := { id := "p1", name := "Solo", email := "s@x" }

/-- Targets used by the wrong actor `p2` to flip `p1`'s card (0,0). -/
def victimTargets : AbilityTargets :=
  { ownCardPosition := none
    opponentPlayerId := some "p1"
    opponentCardPosition := some { row := 0, col := 0 } }

/-- Targets naming an opponent id that is not in the game. -/
def unknownTargets : AbilityTargets :=
  { ownCardPosition := none
    opponentPlayerId := some "zz"
    opponentCardPosition := some { row := 0, col := 0 } }

/-- The document produced by the successful replace of the C6 witness:
`p1` replaces the card at (0,0) with the plain held card. -/
def gReplaced : GameState :=
  discardAndReplaceDoc gPlaying "p1" heldPlain { row := 0, col := 0 }

/-- A♥, same rank and value as A♠ (used to build a score tie). -/
def aceHearts : Card :=
  { id := "a-hearts", suit := some Suit.hearts, rank := Rank.A, value := 1,
    isFaceUp := false, specialAbility := none }

/-- Tie fixture, player 1: a single ace, score 1. -/
def tiePlayerOne : Player :=
  { id := "p1", name := "Alice", email := "a@x", cards := [[some aceSpades, none, none]],
    score := 0, isHost := true, isCurrentTurn := true, hasCalledStop := false }

/-- Tie fixture, player 2: a single ace, score 1. -/
def tiePlayerTwo : Player :=
  { id := "p2", name := "Bea", email := "b@x", cards := [[some aceHearts, none, none]],
    score := 0, isHost := false, isCurrentTurn := false, hasCalledStop := true }

/-- A two-player game about to be ended in which both players will
score exactly 1: a tie for the minimum. -/
def gTie : GameState :=
  { players := [tiePlayerOne, tiePlayerTwo], currentPlayerIndex := 0, deck := [],
    discardPile := [], gameMode := 3, status := GameStatus.ending,
    activeAbility := none, winner := none }

/-- The grid {A♠, 10♥, K♣, joker} of the scoring property. -/
def exampleGrid : Grid :=
  [[some aceSpades, some tenHearts, some kingClubs],
    [some jokerCard, none, none]]

/-- A plain card with a given id (deal fixtures). -/
def plainCard (s : String) : Card :=
  { id := s, suit := some Suit.clubs, rank := Rank.r4, value := 4,
    isFaceUp := false, specialAbility := none }

/-- Twelve distinct face-down cards, exactly enough for two 2×3 grids. -/
def deckTwelve : List Card :=
  [plainCard "d0", plainCard "d1", plainCard "d2", plainCard "d3",
    plainCard "d4", plainCard "d5", plainCard "d6", plainCard "d7",
    plainCard "d8", plainCard "d9", plainCard "d10", plainCard "d11"]

/-! ## Concurrency model for the plain read-then-write draw

`drawFromDeck` (`gameService.ts` 440–469) is **not** a transaction: it
`getDoc`-reads a snapshot, and when the deck is nonempty it
`updateDoc`-writes `deck.slice(1)` unconditionally and returns
`deck[0]`.  The model below splits one call at that read/write boundary
and composes two concurrent calls. -/

/-- The outcome a caller of `drawFromDeck` sees (`null` = empty deck). -/
inductive DrawResult
  | success (c : Card)
  | emptyDeck
deriving DecidableEq

/-- One client's `drawFromDeck` call as a function of the snapshot it
read: the result returned to the caller and the document state its
unconditional write produces (no write happens on an empty deck). -/
def drawStepOn (snapshot : GameState) : DrawResult × GameState :=
  match drawFromDeckCompute snapshot with
  | some (c, g') => (DrawResult.success c, g')
  | none => (DrawResult.emptyDeck, snapshot)

/-- Two concurrent `drawFromDeck` calls in the interleaving where both
clients read the document before either write commits — an interleaving
the plain `getDoc` + `updateDoc` pair cannot exclude.  Both compute
from the same snapshot; the writes then land in order. -/
def twoDrawsBothReadFirst (s : GameState) : DrawResult × DrawResult × GameState :=
  let r1 := drawStepOn s
  let r2 := drawStepOn s
  (r1.1, r2.1, r2.2)

/-! ## Spec-side scoring formulation (for C8)

The spec derives each card's points from its rank; the code sums the
stored `value` field.  `gridRankSum` is the spec's formulation, to be
compared with `calculatePlayerScore`. -/

/-- Sum of rank-derived values over every non-empty cell. -/
def gridRankSum (cards : Grid) : Int :=
  (cards.map fun row =>
    (row.map fun cell =>
      match cell with
      | some card => getCardValue card.rank
      | none => 0).sum).sum

/-- A cell is well-valued when its stored `value` equals the rank
derivation (true of every card `createDeck`/`normalizeCard` produces). -/
def cellWellValued : Option Card → Bool
  | some c => c.value == getCardValue c.rank
  | none => true

/-! ## Helper lemmas about the turn-flag recomputation -/

theorem setTurnFlagsFrom_length (idx : Nat) (l : List Player) :
    ∀ n, (setTurnFlagsFrom n idx l).length = l.length := by
  induction l with
  | nil => intro n; rfl
  | cons p ps ih => intro n; simp [setTurnFlagsFrom, ih]

theorem setTurnFlagsFrom_get? (idx : Nat) (l : List Player) :
    ∀ n j, (setTurnFlagsFrom n idx l).get? j =
      (l.get? j).map fun p => { p with isCurrentTurn := (n + j) == idx } := by
  induction l with
  | nil => intro n j; simp [setTurnFlagsFrom]
  | cons p ps ih =>
    intro n j
    cases j with
    | zero => simp [setTurnFlagsFrom]
    | succ j =>
      have h : n + (j + 1) = (n + 1) + j := by omega
      simp only [setTurnFlagsFrom, List.get?_cons_succ]
      rw [h, ih (n + 1) j]

theorem setTurnFlagsFrom_countP (idx : Nat) (l : List Player) :
    ∀ n, (setTurnFlagsFrom n idx l).countP (fun p => p.isCurrentTurn) =
      if n ≤ idx ∧ idx < n + l.length then 1 else 0 := by
  induction l with
  | nil =>
    intro n
    simp only [List.length_nil, setTurnFlagsFrom, List.countP_nil]
    rw [if_neg (by omega)]
  | cons p ps ih =>
    intro n
    rw [setTurnFlagsFrom, List.countP_cons, ih (n + 1)]
    by_cases h : n = idx
    · subst h
      simp only [beq_self_eq_true]
      have h1 : ¬(n + 1 ≤ n ∧ n < n + 1 + ps.length) := by omega
      have h2 : n ≤ n ∧ n < n + (ps.length + 1) := by omega
      simp [h1, h2]
    · have hb : (n == idx) = false := by
        simpa using h
      have h3 : (n + 1 ≤ idx ∧ idx < n + 1 + ps.length) ↔
          (n ≤ idx ∧ idx < n + (ps.length + 1)) := by omega
      simp [hb, h3]

theorem setTurnFlagsFrom_map_cards (idx : Nat) (l : List Player) :
    ∀ n, (setTurnFlagsFrom n idx l).map Player.cards = l.map Player.cards := by
  induction l with
  | nil => intro n; rfl
  | cons p ps ih => intro n; simp [setTurnFlagsFrom, ih]

/-! ## Helper lemmas about the per-player update -/

theorem modifyPlayerAt_length (l : List Player) (i : Nat) (f : Player → Player) :
    (modifyPlayerAt l i f).length = l.length := by
  unfold modifyPlayerAt
  cases h : l.get? i <;> simp

theorem modifyPlayerAt_get?_self (l : List Player) (i : Nat) (f : Player → Player)
    (p : Player) (h : l.get? i = some p) :
    (modifyPlayerAt l i f).get? i = some (f p) := by
  have hi : i < l.length := List.get?_eq_some.1 h |>.choose
  unfold modifyPlayerAt
  rw [h]
  rw [List.get?_set_eq_of_lt _ hi]

/-! ## Helper lemmas about grid cells -/

theorem cellAt_eq_some (cards : Grid) (r c : Nat) (card : Card)
    (h : cellAt cards r c = some card) :
    ∃ row, cards.get? r = some row ∧ row.get? c = some (some card) := by
  unfold cellAt at h
  cases hgr : cards.get? r with
  | none => rw [hgr] at h; simp at h
  | some row =>
    rw [hgr] at h
    simp only [Option.getD_some] at h
    cases hgc : row.get? c with
    | none => rw [hgc] at h; simp at h
    | some cell =>
      rw [hgc] at h
      simp only [Option.getD_some] at h
      exact ⟨row, rfl, by rw [hgc, h]⟩

theorem cellAt_setCellAt_self (cards : Grid) (r c : Nat) (v : Option Card)
    (row : List (Option Card)) (hrow : cards.get? r = some row)
    (hc : c < row.length) :
    cellAt (setCellAt cards r c v) r c = v := by
  have hr : r < cards.length := List.get?_eq_some.1 hrow |>.choose
  unfold cellAt setCellAt
  rw [hrow]
  simp only [Option.getD_some]
  rw [List.get?_set_eq_of_lt _ hr]
  simp only [Option.getD_some]
  rw [List.get?_set_eq_of_lt _ hc]
  rfl

/-! ## Characterisation of `discardAndReplace` -/

theorem discardAndReplace_invalid (g : GameState) (pid : String) (held : Card)
    (pos : Position) (pi : Nat) (player : Player)
    (hpi : g.players.findIdx? (fun p => p.id == pid) = some pi)
    (hp : g.players.get? pi = some player)
    (hoob : pos.row < 0 ∨ (player.cards.length : Int) ≤ pos.row ∨
      pos.col < 0 ∨ (3 : Int) ≤ pos.col) :
    discardAndReplace g pid held pos = Except.error ReplaceError.InvalidPosition := by
  unfold discardAndReplace
  simp only [hpi, hp]
  simp only [if_pos hoob]

theorem discardAndReplace_emptySlot (g : GameState) (pid : String) (held : Card)
    (pos : Position) (pi : Nat) (player : Player)
    (hpi : g.players.findIdx? (fun p => p.id == pid) = some pi)
    (hp : g.players.get? pi = some player)
    (hb : ¬(pos.row < 0 ∨ (player.cards.length : Int) ≤ pos.row ∨
      pos.col < 0 ∨ (3 : Int) ≤ pos.col))
    (hcell : cellAtPos player.cards pos = none) :
    discardAndReplace g pid held pos = Except.error ReplaceError.EmptySlot := by
  unfold discardAndReplace
  simp only [hpi, hp]
  simp only [if_neg hb]
  rw [hcell]

theorem discardAndReplace_ok_eq (g : GameState) (pid : String) (held : Card)
    (pos : Position) (pi : Nat) (player : Player) (rc : Card)
    (hpi : g.players.findIdx? (fun p => p.id == pid) = some pi)
    (hp : g.players.get? pi = some player)
    (hb : ¬(pos.row < 0 ∨ (player.cards.length : Int) ≤ pos.row ∨
      pos.col < 0 ∨ (3 : Int) ≤ pos.col))
    (hcell : cellAtPos player.cards pos = some rc) :
    discardAndReplace g pid held pos =
      Except.ok (applyReplace g pid held pos pi rc) := by
  unfold discardAndReplace
  simp only [hpi, hp]
  simp only [if_neg hb]
  rw [hcell]

/-- Inversion: a successful replace pins the result to `applyReplace`
of the occupant of the targeted cell. -/
theorem discardAndReplace_ok_inv (g : GameState) (pid : String) (held : Card)
    (pos : Position) (g' : GameState) (pi : Nat) (player : Player) (rc : Card)
    (hok : discardAndReplace g pid held pos = Except.ok g')
    (hpi : g.players.findIdx? (fun p => p.id == pid) = some pi)
    (hp : g.players.get? pi = some player)
    (hcell : cellAtPos player.cards pos = some rc) :
    g' = applyReplace g pid held pos pi rc := by
  by_cases hb : pos.row < 0 ∨ (player.cards.length : Int) ≤ pos.row ∨
      pos.col < 0 ∨ (3 : Int) ≤ pos.col
  · rw [discardAndReplace_invalid g pid held pos pi player hpi hp hb] at hok
    exact absurd hok (by simp)
  · rw [discardAndReplace_ok_eq g pid held pos pi player rc hpi hp hb hcell] at hok
    exact (Except.ok.inj hok).symm

/-! ## The discard decision, case by case -/

theorem discardDecision_none (g : GameState) (pid : String) (c : Card)
    (h : c.specialAbility = none) :
    discardDecision g pid c =
      (g.status, g.activeAbility, (g.currentPlayerIndex + 1) % g.players.length) := by
  unfold discardDecision
  rw [h]

theorem discardDecision_double (g : GameState) (pid : String) (c : Card)
    (h : c.specialAbility = some SpecialAbility.doubleTurn) :
    discardDecision g pid c = (g.status, g.activeAbility, g.currentPlayerIndex) := by
  unfold discardDecision
  rw [h]

theorem discardDecision_ability (g : GameState) (pid : String) (c : Card)
    (ab : SpecialAbility) (h : c.specialAbility = some ab)
    (hne : ab ≠ SpecialAbility.doubleTurn) :
    discardDecision g pid c =
      (GameStatus.awaitingAbilityTarget,
        some { playerId := pid, ability := ab, cardId := c.id },
        g.currentPlayerIndex) := by
  unfold discardDecision
  rw [h]
  cases ab with
  | doubleTurn => exact absurd rfl hne
  | peekSelf => rfl
  | flipOpponent => rfl
  | swap => rfl

/-! ## Length preservation of the ability effects -/

theorem applyFlip_length (players : List Player) (oppId : String) (pos : Position) :
    (applyFlip players oppId pos).length = players.length := by
  unfold applyFlip
  cases h : players.findIdx? (fun p => p.id == oppId) with
  | none => rfl
  | some i => exact modifyPlayerAt_length players i _

theorem applySwap_length (players : List Player) (a o : String) (p1 p2 : Position) :
    (applySwap players a o p1 p2).length = players.length := by
  unfold applySwap
  repeat' split
  all_goals try rfl
  all_goals rw [modifyPlayerAt_length, modifyPlayerAt_length]

theorem abilityEffectPlayers_length (players : List Player) (ab : SpecialAbility)
    (a : String) (t : AbilityTargets) :
    (abilityEffectPlayers players ab a t).length = players.length := by
  obtain ⟨own, oppId, oppPos⟩ := t
  cases ab <;> cases own <;> cases oppId <;> cases oppPos <;>
    simp [abilityEffectPlayers, applyFlip_length, applySwap_length]

/-! ## Field equations of `executeAbility` -/

theorem executeAbility_status (g : GameState) (ab : SpecialAbility) (pid : String)
    (t : AbilityTargets) : (executeAbility g ab pid t).status = GameStatus.playing := rfl

theorem executeAbility_activeAbility (g : GameState) (ab : SpecialAbility)
    (pid : String) (t : AbilityTargets) :
    (executeAbility g ab pid t).activeAbility = none := rfl

theorem executeAbility_index (g : GameState) (ab : SpecialAbility) (pid : String)
    (t : AbilityTargets) :
    (executeAbility g ab pid t).currentPlayerIndex =
      (g.currentPlayerIndex + 1) % g.players.length := by
  simp only [executeAbility]
  rw [abilityEffectPlayers_length]

/-- C1 — Turn advancement after a discard: from a `playing` state, a
discard (direct, or via replace where the discarded card is the
replaced occupant) with no ability advances `currentPlayerIndex` by 1
mod player count; `double-turn` leaves it unchanged; any other ability
leaves it unchanged and enters `awaiting-ability-target` recording
`{actor, ability, cardId}`; the subsequent `executeAbility` advances
the index by exactly 1 mod player count, restores `playing` and clears
`activeAbility`. -/
theorem claim1_turn_advance (g : GameState) (pid : String) (card : Card)
    (hst : g.status = GameStatus.playing) :
    (card.specialAbility = none →
      (discardDrawnCard g pid card).currentPlayerIndex =
          (g.currentPlayerIndex + 1) % g.players.length ∧
        (discardDrawnCard g pid card).status = GameStatus.playing) ∧
    (card.specialAbility = some SpecialAbility.doubleTurn →
      (discardDrawnCard g pid card).currentPlayerIndex = g.currentPlayerIndex ∧
        (discardDrawnCard g pid card).status = GameStatus.playing) ∧
    (∀ ab, card.specialAbility = some ab → ab ≠ SpecialAbility.doubleTurn →
      (discardDrawnCard g pid card).currentPlayerIndex = g.currentPlayerIndex ∧
        (discardDrawnCard g pid card).status = GameStatus.awaitingAbilityTarget ∧
        (discardDrawnCard g pid card).activeAbility =
          some { playerId := pid, ability := ab, cardId := card.id }) ∧
    (∀ pos g' pi player rc,
      discardAndReplace g pid card pos = Except.ok g' →
      g.players.findIdx? (fun p => p.id == pid) = some pi →
      g.players.get? pi = some player →
      cellAtPos player.cards pos = some rc →
      (rc.specialAbility = none →
        g'.currentPlayerIndex = (g.currentPlayerIndex + 1) % g.players.length ∧
          g'.status = GameStatus.playing) ∧
      (rc.specialAbility = some SpecialAbility.doubleTurn →
        g'.currentPlayerIndex = g.currentPlayerIndex ∧
          g'.status = GameStatus.playing) ∧
      (∀ ab, rc.specialAbility = some ab → ab ≠ SpecialAbility.doubleTurn →
        g'.currentPlayerIndex = g.currentPlayerIndex ∧
          g'.status = GameStatus.awaitingAbilityTarget ∧
          g'.activeAbility =
            some { playerId := pid, ability := ab, cardId := rc.id })) ∧
    (∀ g2 ab2 pid2 t, g2.status = GameStatus.awaitingAbilityTarget →
      (executeAbility g2 ab2 pid2 t).currentPlayerIndex =
          (g2.currentPlayerIndex + 1) % g2.players.length ∧
        (executeAbility g2 ab2 pid2 t).status = GameStatus.playing ∧
        (executeAbility g2 ab2 pid2 t).activeAbility = none) := by
  refine ⟨?_, ?_, ?_, ?_, ?_⟩
  · intro h
    have hd := discardDecision_none g pid { card with isFaceUp := true } h
    simp [discardDrawnCard, hd, hst]
  · intro h
    have hd := discardDecision_double g pid { card with isFaceUp := true } h
    simp [discardDrawnCard, hd, hst]
  · intro ab h hne
    have hd := discardDecision_ability g pid { card with isFaceUp := true } ab h hne
    simp [discardDrawnCard, hd]
  · intro pos g' pi player rc hok hpi hp hcell
    have hg' := discardAndReplace_ok_inv g pid card pos g' pi player rc hok hpi hp hcell
    subst hg'
    refine ⟨?_, ?_, ?_⟩
    · intro h
      have hd := discardDecision_none g pid { rc with isFaceUp := true } h
      simp [applyReplace, hd, hst]
    · intro h
      have hd := discardDecision_double g pid { rc with isFaceUp := true } h
      simp [applyReplace, hd, hst]
    · intro ab h hne
      have hd := discardDecision_ability g pid { rc with isFaceUp := true } ab h hne
      simp [applyReplace, hd]
  · intro g2 ab2 pid2 t _
    exact ⟨executeAbility_index g2 ab2 pid2 t, rfl, rfl⟩

/-- Witness for C1: in the concrete two-player `playing` fixture,
discarding the plain held card advances the turn to player 2. -/
theorem claim1_turn_advance_witness :
    gPlaying.status = GameStatus.playing ∧
    (discardDrawnCard gPlaying "p1" heldPlain).currentPlayerIndex = 1 :=
  ⟨rfl, by
    have h := (claim1_turn_advance gPlaying "p1" heldPlain rfl).1 rfl
    simpa using h.1⟩

/-! ## Identity cases of the ability effects -/

theorem list_set_self {α : Type} (l : List α) :
    ∀ i a, l.get? i = some a → l.set i a = l := by
  induction l with
  | nil => intro i a h; simp at h
  | cons x xs ih =>
    intro i a h
    cases i with
    | zero =>
      simp only [List.get?_cons_zero, Option.some.injEq] at h
      rw [← h]
      rfl
    | succ i =>
      simp only [List.get?_cons_succ] at h
      simp [List.set, ih i a h]

theorem modifyPlayerAt_id (l : List Player) (i : Nat) (f : Player → Player)
    (h : ∀ p, l.get? i = some p → f p = p) : modifyPlayerAt l i f = l := by
  unfold modifyPlayerAt
  cases hg : l.get? i with
  | none => rfl
  | some p =>
    show l.set i (f p) = l
    rw [h p hg]
    exact list_set_self l i p hg

theorem applyFlip_unknown (players : List Player) (oppId : String) (pos : Position)
    (h : players.findIdx? (fun p => p.id == oppId) = none) :
    applyFlip players oppId pos = players := by
  unfold applyFlip
  rw [h]

theorem applyFlip_oob_col (players : List Player) (oppId : String) (pos : Position)
    (h3 : (3 : Int) ≤ pos.col) :
    applyFlip players oppId pos = players := by
  unfold applyFlip
  split
  · rfl
  · apply modifyPlayerAt_id
    intro p _
    rw [if_neg]
    intro hb
    exact absurd hb.2.2.2 (by omega)

theorem applySwap_unknown_opp (players : List Player) (a o : String)
    (p1 p2 : Position) (h : players.findIdx? (fun p => p.id == o) = none) :
    applySwap players a o p1 p2 = players := by
  unfold applySwap
  cases ha : players.findIdx? (fun p => p.id == a) with
  | none => rfl
  | some i => rw [h]

theorem abilityEffectPlayers_unknown_opp (players : List Player)
    (ab : SpecialAbility) (a : String) (t : AbilityTargets)
    (h : ∀ oid, t.opponentPlayerId = some oid →
      players.findIdx? (fun p => p.id == oid) = none) :
    abilityEffectPlayers players ab a t = players := by
  obtain ⟨own, oppId, oppPos⟩ := t
  cases oppId with
  | none => cases ab <;> cases own <;> cases oppPos <;> rfl
  | some oid =>
    have hn := h oid rfl
    cases ab <;> cases own <;> cases oppPos <;>
      simp [abilityEffectPlayers, applyFlip_unknown _ _ _ hn,
        applySwap_unknown_opp _ _ _ _ _ hn]

theorem abilityEffectPlayers_no_oppPos (players : List Player)
    (ab : SpecialAbility) (a : String) (t : AbilityTargets)
    (h : t.opponentCardPosition = none) :
    abilityEffectPlayers players ab a t = players := by
  obtain ⟨own, oppId, oppPos⟩ := t
  cases h
  cases ab <;> cases own <;> cases oppId <;> rfl

theorem abilityEffectPlayers_flip_oob (players : List Player) (a : String)
    (t : AbilityTargets) (oid : String) (pos : Position)
    (hoid : t.opponentPlayerId = some oid) (hpos : t.opponentCardPosition = some pos)
    (h3 : (3 : Int) ≤ pos.col) :
    abilityEffectPlayers players SpecialAbility.flipOpponent a t = players := by
  obtain ⟨own, oppId, oppPos⟩ := t
  cases hoid
  cases hpos
  cases own <;>
    simp [abilityEffectPlayers, applyFlip_oob_col _ _ _ h3]

theorem abilityEffectPlayers_no_effect (players : List Player)
    (ab : SpecialAbility) (a : String) (t : AbilityTargets)
    (h : ab = SpecialAbility.peekSelf ∨ ab = SpecialAbility.doubleTurn) :
    abilityEffectPlayers players ab a t = players := by
  obtain ⟨own, oppId, oppPos⟩ := t
  cases h with
  | inl h => cases h; cases own <;> cases oppId <;> cases oppPos <;> rfl
  | inr h => cases h; cases own <;> cases oppId <;> cases oppPos <;> rfl

theorem executeAbility_map_cards (g : GameState) (ab : SpecialAbility)
    (pid : String) (t : AbilityTargets) :
    (executeAbility g ab pid t).players.map Player.cards =
      (abilityEffectPlayers g.players ab pid t).map Player.cards :=
  setTurnFlagsFrom_map_cards _ _ 0

/-- C10 — `executeAbility` consumes the pending ability
unconditionally: for every call whatsoever, status is set to `playing`,
`activeAbility` is cleared and `currentPlayerIndex` advances by one mod
player count; and when the targets name no player in the game, omit the
opponent position, aim at an out-of-bounds column, or the ability has
no board effect, every grid is left untouched with no error reported
(the function is total). -/
theorem claim10_unconditional_consumption (g : GameState) (ab : SpecialAbility)
    (pid : String) (t : AbilityTargets) :
    (executeAbility g ab pid t).status = GameStatus.playing ∧
    (executeAbility g ab pid t).activeAbility = none ∧
    (executeAbility g ab pid t).currentPlayerIndex =
      (g.currentPlayerIndex + 1) % g.players.length ∧
    ((∀ oid, t.opponentPlayerId = some oid → ∀ p ∈ g.players, ¬p.id = oid) →
      (executeAbility g ab pid t).players.map Player.cards =
        g.players.map Player.cards) ∧
    (t.opponentCardPosition = none →
      (executeAbility g ab pid t).players.map Player.cards =
        g.players.map Player.cards) ∧
    (∀ oid pos, ab = SpecialAbility.flipOpponent → t.opponentPlayerId = some oid →
      t.opponentCardPosition = some pos → (3 : Int) ≤ pos.col →
      (executeAbility g ab pid t).players.map Player.cards =
        g.players.map Player.cards) ∧
    ((ab = SpecialAbility.peekSelf ∨ ab = SpecialAbility.doubleTurn) →
      (executeAbility g ab pid t).players.map Player.cards =
        g.players.map Player.cards) := by
  refine ⟨rfl, rfl, executeAbility_index g ab pid t, ?_, ?_, ?_, ?_⟩
  · intro h
    have hn : ∀ oid, t.opponentPlayerId = some oid →
        g.players.findIdx? (fun p => p.id == oid) = none := by
      intro oid hoid
      rw [List.findIdx?_eq_none_iff]
      intro x hx
      simpa using h oid hoid x hx
    rw [executeAbility_map_cards, abilityEffectPlayers_unknown_opp _ _ _ _ hn]
  · intro h
    rw [executeAbility_map_cards, abilityEffectPlayers_no_oppPos _ _ _ _ h]
  · intro oid pos hab hoid hpos h3
    subst hab
    rw [executeAbility_map_cards,
      abilityEffectPlayers_flip_oob _ _ _ _ _ hoid hpos h3]
  · intro h
    rw [executeAbility_map_cards, abilityEffectPlayers_no_effect _ _ _ _ h]

/-- Witness for C10: resolving against an opponent id that is not in
the game still flips nothing, yet advances the turn and returns to
`playing`. -/
theorem claim10_unconditional_consumption_witness :
    (executeAbility gPlaying SpecialAbility.flipOpponent "p1" unknownTargets).status =
      GameStatus.playing ∧
    (executeAbility gPlaying SpecialAbility.flipOpponent "p1" unknownTargets).currentPlayerIndex = 1 ∧
    (executeAbility gPlaying SpecialAbility.flipOpponent "p1" unknownTargets).players.map
        Player.cards = gPlaying.players.map Player.cards := by
  have h := claim10_unconditional_consumption gPlaying SpecialAbility.flipOpponent
    "p1" unknownTargets
  refine ⟨h.1, by simpa using h.2.2.1, h.2.2.2.1 ?_⟩
  intro oid hoid p hp
  injection hoid with he
  subst he
  revert p
  decide

/-- C2 — evaluation at the failing input: the game awaits an ability
resolution owned by `p1`, yet a call by `p2` is not rejected — it
flips `p1`'s card, clears the pending ability and advances the turn,
mutating the document. -/
theorem claim2_actor_not_enforced :
    gAwaiting.status = GameStatus.awaitingAbilityTarget ∧
    gAwaiting.activeAbility = some pendingFlip ∧
    pendingFlip.playerId = "p1" ∧
    executeAbility gAwaiting SpecialAbility.flipOpponent "p2" victimTargets ≠ gAwaiting ∧
    (executeAbility gAwaiting SpecialAbility.flipOpponent "p2" victimTargets).activeAbility = none ∧
    (executeAbility gAwaiting SpecialAbility.flipOpponent "p2" victimTargets).status =
      GameStatus.playing ∧
    (executeAbility gAwaiting SpecialAbility.flipOpponent "p2" victimTargets).currentPlayerIndex = 1 ∧
    (executeAbility gAwaiting SpecialAbility.flipOpponent "p2" victimTargets).players.map
        Player.cards =
      [[[some { aceSpades with isFaceUp := true }, some tenHearts, none]],
        [[some kingClubs, none, some jokerCard]]] := by
  decide

/-- C5 — Replace validation: with the actor present in the game, a
replace aimed outside the actor's grid bounds fails with
`InvalidPosition` and an in-bounds but empty cell fails with
`EmptySlot`; in both cases the transaction aborts and the document is
unchanged. -/
theorem claim5_replace_validation (g : GameState) (pid : String) (held : Card)
    (pos : Position) (pi : Nat) (player : Player)
    (hpi : g.players.findIdx? (fun p => p.id == pid) = some pi)
    (hp : g.players.get? pi = some player) :
    ((pos.row < 0 ∨ (player.cards.length : Int) ≤ pos.row ∨ pos.col < 0 ∨
        (3 : Int) ≤ pos.col) →
      discardAndReplace g pid held pos = Except.error ReplaceError.InvalidPosition ∧
      discardAndReplaceDoc g pid held pos = g) ∧
    (¬(pos.row < 0 ∨ (player.cards.length : Int) ≤ pos.row ∨ pos.col < 0 ∨
        (3 : Int) ≤ pos.col) →
      cellAtPos player.cards pos = none →
      discardAndReplace g pid held pos = Except.error ReplaceError.EmptySlot ∧
      discardAndReplaceDoc g pid held pos = g) := by
  constructor
  · intro hoob
    have he := discardAndReplace_invalid g pid held pos pi player hpi hp hoob
    refine ⟨he, ?_⟩
    unfold discardAndReplaceDoc
    rw [he]
  · intro hb hcell
    have he := discardAndReplace_emptySlot g pid held pos pi player hpi hp hb hcell
    refine ⟨he, ?_⟩
    unfold discardAndReplaceDoc
    rw [he]

/-- Witness for C5: concrete out-of-bounds and empty-cell replaces in
the two-player fixture fail with the right errors, leaving the
document untouched. -/
theorem claim5_replace_validation_witness :
    discardAndReplace gPlaying "p1" heldPlain { row := 5, col := 0 } =
      Except.error ReplaceError.InvalidPosition ∧
    discardAndReplace gPlaying "p1" heldPlain { row := 0, col := 2 } =
      Except.error ReplaceError.EmptySlot ∧
    discardAndReplaceDoc gPlaying "p1" heldPlain { row := 5, col := 0 } = gPlaying := by
  have h1 := claim5_replace_validation gPlaying "p1" heldPlain
    { row := 5, col := 0 } 0 playerOne (by decide) (by decide)
  have h2 := claim5_replace_validation gPlaying "p1" heldPlain
    { row := 0, col := 2 } 0 playerOne (by decide) (by decide)
  exact ⟨(h1.1 (by decide)).1, (h2.2 (by decide) (by decide)).1, (h1.1 (by decide)).2⟩

/-- C6 — Replace semantics: a successful replace moves the cell's
previous occupant face-up to the discard-pile head, puts the held card
into the cell face-down, and the turn/ability decision is keyed off
the replaced card — two calls differing only in the held card decide
identically. -/
theorem claim6_replace_semantics (g : GameState) (pid : String) (held : Card)
    (pos : Position) (g' : GameState) (pi : Nat) (player : Player) (rc : Card)
    (hok : discardAndReplace g pid held pos = Except.ok g')
    (hpi : g.players.findIdx? (fun p => p.id == pid) = some pi)
    (hp : g.players.get? pi = some player)
    (hcell : cellAtPos player.cards pos = some rc) :
    g'.discardPile = { rc with isFaceUp := true } :: g.discardPile ∧
    (∃ p', g'.players.get? pi = some p' ∧
      cellAtPos p'.cards pos = some { held with isFaceUp := false }) ∧
    (rc.specialAbility = none →
      g'.currentPlayerIndex = (g.currentPlayerIndex + 1) % g.players.length ∧
      g'.status = g.status ∧ g'.activeAbility = g.activeAbility) ∧
    (rc.specialAbility = some SpecialAbility.doubleTurn →
      g'.currentPlayerIndex = g.currentPlayerIndex ∧ g'.status = g.status ∧
      g'.activeAbility = g.activeAbility) ∧
    (∀ ab, rc.specialAbility = some ab → ab ≠ SpecialAbility.doubleTurn →
      g'.status = GameStatus.awaitingAbilityTarget ∧
      g'.activeAbility = some { playerId := pid, ability := ab, cardId := rc.id } ∧
      g'.currentPlayerIndex = g.currentPlayerIndex) ∧
    (∀ held2 g2, discardAndReplace g pid held2 pos = Except.ok g2 →
      g2.status = g'.status ∧ g2.currentPlayerIndex = g'.currentPlayerIndex ∧
      g2.activeAbility = g'.activeAbility) := by
  have hg' := discardAndReplace_ok_inv g pid held pos g' pi player rc hok hpi hp hcell
  subst hg'
  obtain ⟨row, hrow, hrc⟩ :=
    cellAt_eq_some player.cards pos.row.toNat pos.col.toNat rc hcell
  have hc : pos.col.toNat < row.length := List.get?_eq_some.1 hrc |>.choose
  refine ⟨rfl, ?_, ?_, ?_, ?_, ?_⟩
  · have h0 : (applyReplace g pid held pos pi rc).players =
        setTurnFlagsFrom 0
          (discardDecision g pid { rc with isFaceUp := true }).2.2
          (modifyPlayerAt g.players pi fun p =>
            { p with cards := (setCellAt p.cards pos.row.toNat pos.col.toNat
                (some { held with isFaceUp := false })) }) := rfl
    rw [h0, setTurnFlagsFrom_get?,
      modifyPlayerAt_get?_self g.players pi _ player hp]
    refine ⟨_, rfl, ?_⟩
    show cellAtPos (setCellAt player.cards pos.row.toNat pos.col.toNat
      (some { held with isFaceUp := false })) pos = some { held with isFaceUp := false }
    exact cellAt_setCellAt_self player.cards pos.row.toNat pos.col.toNat _ row hrow hc
  · intro h
    have hd := discardDecision_none g pid { rc with isFaceUp := true } h
    simp [applyReplace, hd]
  · intro h
    have hd := discardDecision_double g pid { rc with isFaceUp := true } h
    simp [applyReplace, hd]
  · intro ab h hne
    have hd := discardDecision_ability g pid { rc with isFaceUp := true } ab h hne
    simp [applyReplace, hd]
  · intro held2 g2 hok2
    have hg2 := discardAndReplace_ok_inv g pid held2 pos g2 pi player rc hok2 hpi hp hcell
    subst hg2
    exact ⟨rfl, rfl, rfl⟩

/-- Witness for C6: `p1` replaces A♠ at (0,0) with the plain held
card; A♠ heads the discard pile face-up, the held card sits face-down
in the cell, and the turn advances (A has no ability). -/
theorem claim6_replace_semantics_witness :
    discardAndReplace gPlaying "p1" heldPlain { row := 0, col := 0 } =
      Except.ok gReplaced ∧
    gReplaced.discardPile = { aceSpades with isFaceUp := true } :: gPlaying.discardPile ∧
    (∃ p', gReplaced.players.get? 0 = some p' ∧
      cellAtPos p'.cards { row := 0, col := 0 } =
        some { heldPlain with isFaceUp := false }) ∧
    gReplaced.currentPlayerIndex = 1 := by
  have hok : discardAndReplace gPlaying "p1" heldPlain { row := 0, col := 0 } =
      Except.ok gReplaced := rfl
  have h := claim6_replace_semantics gPlaying "p1" heldPlain { row := 0, col := 0 }
    gReplaced 0 playerOne aceSpades hok (by decide) (by decide) (by decide)
  refine ⟨hok, h.1, h.2.1, ?_⟩
  have := (h.2.2.1 (by decide)).1
  simpa using this

/-- C7 — evaluation at the failing input: with a single-card deck, two
concurrent `drawFromDeck` calls that both read before either write
commits both succeed and both return that same card — the claimed
"exactly one success" outcome is not guaranteed because the source
uses a plain `getDoc` + `updateDoc` pair rather than a transaction. -/
theorem claim7_concurrent_draw_unsafe :
    gPlaying.deck = [queenSpades] ∧
    (twoDrawsBothReadFirst gPlaying).1 = DrawResult.success queenSpades ∧
    (twoDrawsBothReadFirst gPlaying).2.1 = DrawResult.success queenSpades := by
  decide

/-- C8 — Scoring: on any grid whose cards carry the rank-derived value
(as every card built by `createDeck`/`normalizeCard` does), the score
is the sum of rank-derived values over the non-empty cells; and the
grid {A♠, 10♥, K♣, joker} scores 1 + 0 + 15 + (−1) = 15. -/
theorem claim8_scoring (grid : Grid)
    (h : ∀ row ∈ grid, ∀ cell ∈ row, cellWellValued cell = true) :
    calculatePlayerScore grid = gridRankSum grid ∧
    calculatePlayerScore exampleGrid = 15 := by
  constructor
  · unfold calculatePlayerScore gridRankSum
    congr 1
    apply List.map_congr
    intro row hrow
    congr 1
    apply List.map_congr
    intro cell hcell
    cases cell with
    | none => rfl
    | some c =>
      have hv := h row hrow (some c) hcell
      simp only [cellWellValued, beq_iff_eq] at hv
      simpa using hv
  · decide

/-- Witness for C8: the example grid is well-valued and scores 15. -/
theorem claim8_scoring_witness :
    (∀ row ∈ exampleGrid, ∀ cell ∈ row, cellWellValued cell = true) ∧
    calculatePlayerScore exampleGrid = 15 :=
  ⟨by decide, (claim8_scoring exampleGrid (by decide)).2⟩

/-! ## The winner reduce: minimality and tie-break direction -/

theorem pickWinner_cons (p : Player) (ps : List Player) :
    pickWinner (p :: ps) = some (winnerFold p ps) := rfl

/-- Structure of the reduce: the selected player splits the list, is a
minimum of it, and every player strictly after the selection scores
strictly more — i.e. ties for the minimum go to the **last** such
player. -/
theorem winnerFold_split (ps : List Player) : ∀ p : Player,
    ∃ l1 l2,
      p :: ps = l1 ++ (winnerFold p ps) :: l2 ∧
      (∀ q ∈ l1, (winnerFold p ps).score ≤ q.score) ∧
      (∀ q ∈ l2, (winnerFold p ps).score < q.score) := by
  induction ps with
  | nil =>
    intro p
    exact ⟨[], [], rfl, by simp, by simp⟩
  | cons c rest ih =>
    intro p
    by_cases hlt : p.score < c.score
    · have hstep : winnerFold p (c :: rest) = winnerFold p rest := by
        simp [winnerFold, List.foldl_cons, if_pos hlt]
      obtain ⟨l1, l2, hsp, hb1, hb2⟩ := ih p
      rw [hstep]
      cases l1 with
      | nil =>
        simp only [List.nil_append] at hsp
        injection hsp with hw hl2
        refine ⟨[], c :: rest, ?_, by simp, ?_⟩
        · simp [← hw]
        · intro q hq
          rcases List.mem_cons.1 hq with h | h
          · subst h
            rw [← hw]
            exact hlt
          · exact hb2 q (hl2 ▸ h)
      | cons hd t =>
        rw [List.cons_append] at hsp
        injection hsp with hph hrest
        refine ⟨p :: c :: t, l2, ?_, ?_, hb2⟩
        · rw [List.cons_append, List.cons_append, ← hrest]
        · intro q hq
          have hwp : (winnerFold p rest).score ≤ p.score :=
            hb1 p (hph ▸ List.mem_cons_self hd t)
          rcases List.mem_cons.1 hq with h1 | hq1
          · subst h1
            exact hwp
          · rcases List.mem_cons.1 hq1 with h2 | hq2
            · subst h2
              exact le_of_lt (lt_of_le_of_lt hwp hlt)
            · exact hb1 q (List.mem_cons_of_mem hd hq2)
    · have hstep : winnerFold p (c :: rest) = winnerFold c rest := by
        simp [winnerFold, List.foldl_cons, if_neg hlt]
      have hcp : c.score ≤ p.score := le_of_not_lt hlt
      obtain ⟨l1, l2, hsp, hb1, hb2⟩ := ih c
      rw [hstep]
      have hwc : (winnerFold c rest).score ≤ c.score := by
        cases l1 with
        | nil =>
          simp only [List.nil_append] at hsp
          injection hsp with hw _
          rw [← hw]
        | cons hd t =>
          rw [List.cons_append] at hsp
          injection hsp with hch _
          exact hb1 c (hch ▸ List.mem_cons_self hd t)
      refine ⟨p :: l1, l2, ?_, ?_, hb2⟩
      · rw [List.cons_append, ← hsp]
      · intro q hq
        rcases List.mem_cons.1 hq with h1 | hq1
        · subst h1
          exact le_trans hwc hcp
        · exact hb1 q hq1

/-! ## End-game helper lemmas -/

theorem revealGrid_faceUp (cards : Grid) :
    ∀ row ∈ revealGrid cards, ∀ cell ∈ row, ∀ c, cell = some c →
      c.isFaceUp = true := by
  intro row hrow cell hcell c hc
  unfold revealGrid at hrow
  obtain ⟨row0, _, rfl⟩ := List.mem_map.1 hrow
  obtain ⟨cell0, _, rfl⟩ := List.mem_map.1 hcell
  cases cell0 with
  | none => simp at hc
  | some c0 =>
    simp only [Option.map_some'] at hc
    injection hc with hc
    rw [← hc]

theorem revealGrid_idem (cards : Grid) :
    revealGrid (revealGrid cards) = revealGrid cards := by
  unfold revealGrid
  rw [List.map_map]
  apply List.map_congr
  intro row _
  show (row.map _).map _ = row.map _
  rw [List.map_map]
  apply List.map_congr
  intro cell _
  cases cell <;> rfl

theorem endGamePlayers_idem (players : List Player) :
    endGamePlayers (endGamePlayers players) = endGamePlayers players := by
  unfold endGamePlayers
  rw [List.map_map]
  apply List.map_congr
  intro q _
  simp [endPlayer, Function.comp, revealGrid_idem]

theorem endGame_idem (g : GameState) : endGame (endGame g) = endGame g := by
  simp [endGame, endGamePlayers_idem]

/-- C4 counterexample: with two players tied at score 1, the source's
reduce chooses the **second** player, so the claimed first-player
tie-break is false on this input. -/
theorem claim4_counterexample_tiebreak :
    (endGame gTie).players.map Player.score = [1, 1] ∧
    (endGame gTie).players.map Player.id = ["p1", "p2"] ∧
    (endGame gTie).winner = some "p2" ∧
    (endGame gTie).winner ≠ some "p1" := by
  decide

/-- C4 (amended) — End-game correctness and idempotence: `endGame`
reveals every card, sets every player's score to the scoring function
of their revealed grid, sets status to `finished`, and sets `winner`
to a minimum-score player — ties broken by the **last** such player in
player-list order (every player after the winner scores strictly
more); `endGame` is idempotent. -/
theorem claim4_endGame (g : GameState) (hne : g.players ≠ []) :
    (endGame g).status = GameStatus.finished ∧
    (∀ p ∈ (endGame g).players, ∀ row ∈ p.cards, ∀ cell ∈ row,
      ∀ c, cell = some c → c.isFaceUp = true) ∧
    (∀ p ∈ (endGame g).players, p.score = calculatePlayerScore p.cards) ∧
    (∃ l1 w l2, (endGame g).players = l1 ++ w :: l2 ∧
      (endGame g).winner = some w.id ∧
      (∀ q ∈ (endGame g).players, w.score ≤ q.score) ∧
      (∀ q ∈ l2, w.score < q.score)) ∧
    endGame (endGame g) = endGame g := by
  refine ⟨rfl, ?_, ?_, ?_, endGame_idem g⟩
  · intro p hp
    have hp' : p ∈ endGamePlayers g.players := hp
    unfold endGamePlayers at hp'
    obtain ⟨q, _, rfl⟩ := List.mem_map.1 hp'
    exact revealGrid_faceUp q.cards
  · intro p hp
    have hp' : p ∈ endGamePlayers g.players := hp
    unfold endGamePlayers at hp'
    obtain ⟨q, _, rfl⟩ := List.mem_map.1 hp'
    rfl
  · cases hps : g.players with
    | nil => exact absurd hps hne
    | cons p0 ps =>
      have hplayers : (endGame g).players =
          endGamePlayers (p0 :: ps) := by
        show endGamePlayers g.players = _
        rw [hps]
      have hunf : endGamePlayers (p0 :: ps) =
          endPlayer p0 :: ps.map endPlayer := rfl
      obtain ⟨l1, l2, hsp, hb1, hb2⟩ :=
        winnerFold_split (ps.map endPlayer) (endPlayer p0)
      refine ⟨l1, _, l2, ?_, ?_, ?_, hb2⟩
      · rw [hplayers, hunf, hsp]
      · show (pickWinner (endGamePlayers g.players)).map Player.id = _
        rw [hps, hunf, pickWinner_cons]
        rfl
      · intro q hq
        rw [hplayers, hunf, hsp] at hq
        rcases List.mem_append.1 hq with h | h
        · exact hb1 q h
        · rcases List.mem_cons.1 h with h | h
          · rw [h]
          · exact le_of_lt (hb2 q h)

/-- Witness for C4 (amended): ending the tie fixture finishes the game
and a second `endGame` changes nothing. -/
theorem claim4_endGame_witness :
    gTie.players ≠ [] ∧
    (endGame gTie).status = GameStatus.finished ∧
    endGame (endGame gTie) = endGame gTie := by
  have h := claim4_endGame gTie (by decide)
  exact ⟨by decide, h.1, h.2.2.2.2⟩

/-! ## Computation of the deal loops -/

theorem card_faceDown_eta (c : Card) (h : c.isFaceUp = false) :
    { c with isFaceUp := false } = c := by
  cases c
  simp only at h
  rw [h]

theorem dealRowCells_spec (deck : List Card) (b : Bool) :
    ∀ cols di, di ≤ deck.length →
      dealRowCells deck b di cols =
        ((List.range cols).map (fun k => (deck.get? (di + k)).map
          (fun card => if b then { card with isFaceUp := false } else card)),
         min (di + cols) deck.length) := by
  intro cols
  induction cols with
  | zero =>
    intro di h
    simp only [dealRowCells, List.range_zero, List.map_nil, Prod.mk.injEq,
      true_and]
    omega
  | succ cols ih =>
    intro di h
    rw [List.range_succ_eq_map]
    cases hg : deck.get? di with
    | some card =>
      have hdi : di < deck.length := List.get?_eq_some.1 hg |>.choose
      show (dealRowCells deck b di (cols + 1)) = _
      unfold dealRowCells
      rw [hg, ih (di + 1) (by omega)]
      simp only [List.map_cons, List.map_map, Prod.mk.injEq, List.cons.injEq]
      refine ⟨⟨?_, ?_⟩, by omega⟩
      · rw [Nat.add_zero, hg]
        rfl
      · apply List.map_congr
        intro k _
        simp only [Function.comp]
        have : di + 1 + k = di + (k + 1) := by omega
        rw [this]
    | none =>
      have hdi : deck.length ≤ di := List.get?_eq_none.1 hg
      show (dealRowCells deck b di (cols + 1)) = _
      unfold dealRowCells
      rw [hg, ih di h]
      simp only [List.map_cons, List.map_map, Prod.mk.injEq, List.cons.injEq]
      refine ⟨⟨?_, ?_⟩, by omega⟩
      · rw [Nat.add_zero, hg]
        rfl
      · apply List.map_congr
        intro k _
        simp only [Function.comp]
        have h1 : deck.get? (di + k) = none :=
          List.get?_eq_none.2 (by omega)
        have h2 : deck.get? (di + (k + 1)) = none :=
          List.get?_eq_none.2 (by omega)
        rw [h1, h2]

theorem get?_min_shift {α : Type} (l : List α) (a k : Nat) :
    l.get? (min a l.length + k) = l.get? (a + k) := by
  rcases le_total a l.length with h | h
  · rw [Nat.min_eq_left h]
  · rw [Nat.min_eq_right h]
    rw [List.get?_eq_none.2 (by omega), List.get?_eq_none.2 (by omega)]

theorem dealHandRows_two (deck : List Card) (di : Nat) (h : di ≤ deck.length) :
    dealHandRows deck di 2 =
      ([(List.range 3).map (fun k => deck.get? (di + k)),
        (List.range 3).map (fun k => (deck.get? (di + 3 + k)).map
          (fun card => { card with isFaceUp := false }))],
       min (di + 6) deck.length) := by
  have e1 : dealHandRows deck di 2 =
      ((dealRowCells deck false di 3).1 ::
        (dealRowCells deck true (dealRowCells deck false di 3).2 3).1 :: [],
       (dealRowCells deck true (dealRowCells deck false di 3).2 3).2) := rfl
  rw [e1, dealRowCells_spec deck false 3 di h]
  simp only []
  rw [dealRowCells_spec deck true 3 (min (di + 3) deck.length) (by omega)]
  have hrowT : (List.range 3).map (fun k => (deck.get? (di + k)).map
      (fun card => if false then { card with isFaceUp := false } else card)) =
      (List.range 3).map (fun k => deck.get? (di + k)) := by
    apply List.map_congr
    intro k _
    cases deck.get? (di + k) <;> simp
  have hrowB : (List.range 3).map
      (fun k => (deck.get? (min (di + 3) deck.length + k)).map
        (fun card => if true then { card with isFaceUp := false } else card)) =
      (List.range 3).map (fun k => (deck.get? (di + 3 + k)).map
        (fun card => { card with isFaceUp := false })) := by
    apply List.map_congr
    intro k _
    rw [get?_min_shift deck (di + 3) k]
    cases deck.get? (di + 3 + k) <;> simp
  have hmin : min (min (di + 3) deck.length + 3) deck.length =
      min (di + 6) deck.length := by omega
  rw [hrowT, hrowB, hmin]

theorem dealCards_two_six (deck : List Card) (p1 p2 : Player)
    (hface : ∀ c ∈ deck, c.isFaceUp = false) :
    dealCards deck [p1, p2] 6 =
      (deck.drop 12,
       [(p1.id, [(List.range 3).map (fun k => deck.get? k),
                 (List.range 3).map (fun k => deck.get? (3 + k))]),
        (p2.id, [(List.range 3).map (fun k => deck.get? (6 + k)),
                 (List.range 3).map (fun k => deck.get? (9 + k))])]) := by
  have hsetf : ∀ base : Nat,
      (List.range 3).map (fun k => (deck.get? (base + k)).map
        (fun card => { card with isFaceUp := false })) =
      (List.range 3).map (fun k => deck.get? (base + k)) := by
    intro base
    apply List.map_congr
    intro k _
    cases hg : deck.get? (base + k) with
    | none => rfl
    | some c =>
      have hc : c ∈ deck := List.get?_mem hg
      simp [card_faceDown_eta c (hface c hc)]
  have e : dealCards deck [p1, p2] 6 =
      (deck.drop (dealPlayersLoop deck 2 [p1, p2] 0).2,
       (dealPlayersLoop deck 2 [p1, p2] 0).1) := rfl
  have e2 : dealPlayersLoop deck 2 [p1, p2] 0 =
      ((p1.id, (dealHandRows deck 0 2).1) ::
        (p2.id, (dealHandRows deck (dealHandRows deck 0 2).2 2).1) :: [],
       (dealHandRows deck (dealHandRows deck 0 2).2 2).2) := rfl
  rw [e, e2, dealHandRows_two deck 0 (by omega)]
  simp only []
  rw [dealHandRows_two deck (min (0 + 6) deck.length) (by omega)]
  have hshift1 : ∀ k, deck.get? (min (0 + 6) deck.length + k) = deck.get? (6 + k) := by
    intro k
    have := get?_min_shift deck (0 + 6) k
    simpa using this
  have hshift2 : ∀ k, deck.get? (min (0 + 6) deck.length + 3 + k) = deck.get? (9 + k) := by
    intro k
    have h1 : min (0 + 6) deck.length + 3 + k = min (0 + 6) deck.length + (3 + k) := by omega
    rw [h1, get?_min_shift deck (0 + 6) (3 + k)]
    congr 1
    omega
  have hrow1 : (List.range 3).map (fun k => deck.get? (0 + k)) =
      (List.range 3).map (fun k => deck.get? k) := by
    apply List.map_congr
    intro k _
    rw [Nat.zero_add]
  have hrow2 : (List.range 3).map (fun k => (deck.get? (0 + 3 + k)).map
      (fun card => { card with isFaceUp := false })) =
      (List.range 3).map (fun k => deck.get? (3 + k)) := by
    rw [hsetf (0 + 3)]
  have hrow3 : (List.range 3).map (fun k => deck.get? (min (0 + 6) deck.length + k)) =
      (List.range 3).map (fun k => deck.get? (6 + k)) := by
    apply List.map_congr
    intro k _
    exact hshift1 k
  have hrow4 : (List.range 3).map (fun k => (deck.get? (min (0 + 6) deck.length + 3 + k)).map
      (fun card => { card with isFaceUp := false })) =
      (List.range 3).map (fun k => deck.get? (9 + k)) := by
    rw [hsetf (min (0 + 6) deck.length + 3)]
    apply List.map_congr
    intro k _
    exact hshift2 k
  have hdrop : deck.drop (min (min (0 + 6) deck.length + 6) deck.length) =
      deck.drop 12 := by
    have hm : min (min (0 + 6) deck.length + 6) deck.length = min 12 deck.length := by
      omega
    rw [hm]
    rcases le_total 12 deck.length with h12 | h12
    · rw [Nat.min_eq_left h12]
    · rw [Nat.min_eq_right h12, List.drop_eq_nil_of_le h12,
        List.drop_eq_nil_of_le (le_refl _)]
  rw [hrow1, hrow2, hrow3, hrow4, hdrop]

/-- C9 — Deal shape and face state: `dealCards(deck, [P1, P2], 6)`
yields two 2×3 grids keyed by player id in order; cell (r,c) of grid 1
holds deck card `3r + c` and of grid 2 deck card `6 + 3r + c`
(sequential off the deck head, so 6 cards each and no identity in both
grids when ids are distinct); the remaining deck is the input minus its
first 12 cards; every dealt card is face-down (the input deck being
face-down, as `createDeck` produces); and a deck shorter than 12 fills
the remaining cells with `null` instead of throwing — the function is
total, and an empty deck deals fully-null grids. -/
theorem claim9_deal_shape (deck : List Card) (p1 p2 : Player)
    (hface : ∀ c ∈ deck, c.isFaceUp = false)
    (hids : (deck.map Card.id).Nodup) :
    ∃ grid1 grid2,
      (dealCards deck [p1, p2] 6).2 = [(p1.id, grid1), (p2.id, grid2)] ∧
      (dealCards deck [p1, p2] 6).1 = deck.drop 12 ∧
      grid1.length = 2 ∧ grid2.length = 2 ∧
      (∀ row ∈ grid1, row.length = 3) ∧ (∀ row ∈ grid2, row.length = 3) ∧
      (∀ r, r < 2 → ∀ c, c < 3 → cellAt grid1 r c = deck.get? (3 * r + c)) ∧
      (∀ r, r < 2 → ∀ c, c < 3 → cellAt grid2 r c = deck.get? (6 + 3 * r + c)) ∧
      (12 ≤ deck.length → ∀ r, r < 2 → ∀ c, c < 3 →
        cellAt grid1 r c ≠ none ∧ cellAt grid2 r c ≠ none) ∧
      (∀ row ∈ grid1 ++ grid2, ∀ cell ∈ row, ∀ cd, cell = some cd →
        cd.isFaceUp = false) ∧
      (∀ c1 c2, (∃ row ∈ grid1, some c1 ∈ row) →
        (∃ row ∈ grid2, some c2 ∈ row) → c1.id ≠ c2.id) ∧
      (deck = [] → grid1 = [[none, none, none], [none, none, none]]) := by
  have hdc := dealCards_two_six deck p1 p2 hface
  have hfd : ∀ j cd, deck.get? j = some cd → cd.isFaceUp = false :=
    fun j cd h => hface cd (List.get?_mem h)
  have hne12 : ∀ j, j < 12 → 12 ≤ deck.length → deck.get? j ≠ none := by
    intro j hj hlen
    rw [Ne, List.get?_eq_none]
    omega
  refine ⟨[[deck.get? 0, deck.get? 1, deck.get? 2],
           [deck.get? 3, deck.get? 4, deck.get? 5]],
          [[deck.get? 6, deck.get? 7, deck.get? 8],
           [deck.get? 9, deck.get? 10, deck.get? 11]],
          ?_, ?_, rfl, rfl, ?_, ?_, ?_, ?_, ?_, ?_, ?_, ?_⟩
  · rw [hdc]
    exact rfl
  · rw [hdc]
  · intro row hrow
    simp only [List.mem_cons, List.not_mem_nil, or_false] at hrow
    rcases hrow with rfl | rfl <;> rfl
  · intro row hrow
    simp only [List.mem_cons, List.not_mem_nil, or_false] at hrow
    rcases hrow with rfl | rfl <;> rfl
  · intro r hr c hc
    interval_cases r <;> interval_cases c <;> rfl
  · intro r hr c hc
    interval_cases r <;> interval_cases c <;> rfl
  · intro h12 r hr c hc
    interval_cases r <;> interval_cases c <;>
      exact ⟨hne12 _ (by omega) h12, hne12 _ (by omega) h12⟩
  · intro row hrow cell hcell cd hcd
    simp only [List.cons_append, List.nil_append, List.mem_cons,
      List.not_mem_nil, or_false] at hrow
    rcases hrow with rfl | rfl | rfl | rfl <;>
      · simp only [List.mem_cons, List.not_mem_nil, or_false] at hcell
        rcases hcell with rfl | rfl | rfl <;> exact hfd _ _ hcd
  · intro c1 c2 h1 h2
    have hmem1 : ∃ j, j < 6 ∧ deck.get? j = some c1 := by
      obtain ⟨row, hrow, hc⟩ := h1
      simp only [List.mem_cons, List.not_mem_nil, or_false] at hrow
      rcases hrow with rfl | rfl <;>
        · simp only [List.mem_cons, List.not_mem_nil, or_false] at hc
          rcases hc with h | h | h
          · exact ⟨_, by omega, h.symm⟩
          · exact ⟨_, by omega, h.symm⟩
          · exact ⟨_, by omega, h.symm⟩
    have hmem2 : ∃ j, 6 ≤ j ∧ j < 12 ∧ deck.get? j = some c2 := by
      obtain ⟨row, hrow, hc⟩ := h2
      simp only [List.mem_cons, List.not_mem_nil, or_false] at hrow
      rcases hrow with rfl | rfl <;>
        · simp only [List.mem_cons, List.not_mem_nil, or_false] at hc
          rcases hc with h | h | h
          · exact ⟨_, by omega, by omega, h.symm⟩
          · exact ⟨_, by omega, by omega, h.symm⟩
          · exact ⟨_, by omega, by omega, h.symm⟩
    obtain ⟨j1, hj1lt, hj1⟩ := hmem1
    obtain ⟨j2, hj2ge, hj2lt, hj2⟩ := hmem2
    intro heq
    have h1m : (deck.map Card.id).get? j1 = some c1.id := by
      rw [List.get?_map, hj1]
      rfl
    have h2m : (deck.map Card.id).get? j2 = some c2.id := by
      rw [List.get?_map, hj2]
      rfl
    have hlen1 : j1 < (deck.map Card.id).length := by
      rw [List.length_map]
      exact (List.get?_eq_some.1 hj1).choose
    have hj12 : j1 = j2 :=
      List.get?_inj hlen1 hids (by rw [h1m, h2m, heq])
    omega
  · intro h
    subst h
    rfl

/-- Witness for C9: dealing the twelve-card fixture deck to the two
fixture players empties the deck and yields the two grids. -/
theorem claim9_deal_shape_witness :
    (∀ c ∈ deckTwelve, c.isFaceUp = false) ∧
    (deckTwelve.map Card.id).Nodup ∧
    (dealCards deckTwelve [playerOne, playerTwo] 6).1 = deckTwelve.drop 12 ∧
    ∃ grid1 grid2, (dealCards deckTwelve [playerOne, playerTwo] 6).2 =
      [(playerOne.id, grid1), (playerTwo.id, grid2)] := by
  have h := claim9_deal_shape deckTwelve playerOne playerTwo (by decide) (by decide)
  obtain ⟨g1, g2, ha, hb, -⟩ := h
  exact ⟨by decide, by decide, hb, g1, g2, ha⟩

/-! ## The single-current-player invariant (C3) -/

theorem setTurnFlagsFrom_pointwise (l : List Player) (idx : Nat) :
    ∀ j p, (setTurnFlagsFrom 0 idx l).get? j = some p →
      p.isCurrentTurn = (j == idx) := by
  intro j p h
  rw [setTurnFlagsFrom_get?] at h
  cases hg : l.get? j with
  | none => rw [hg] at h; simp at h
  | some q =>
    rw [hg] at h
    simp only [Option.map_some'] at h
    injection h with h
    rw [← h]
    simp [Nat.zero_add]

theorem countP_flags (l : List Player) :
    ∀ n idx, (∀ j p, l.get? j = some p → p.isCurrentTurn = ((n + j) == idx)) →
      l.countP (fun p => p.isCurrentTurn) =
        if n ≤ idx ∧ idx < n + l.length then 1 else 0 := by
  induction l with
  | nil =>
    intro n idx _
    simp only [List.length_nil, List.countP_nil]
    rw [if_neg (by omega)]
  | cons a t ih =>
    intro n idx h
    rw [List.countP_cons]
    have ha : a.isCurrentTurn = ((n + 0) == idx) := h 0 a rfl
    have ht := ih (n + 1) idx (fun j p hj => by
      have hx := h (j + 1) p (by simpa using hj)
      have he : n + (j + 1) = (n + 1) + j := by omega
      rw [he] at hx
      exact hx)
    rw [ht, ha]
    simp only [List.length_cons]
    by_cases hni : n = idx
    · subst hni
      rw [if_neg (show ¬(n + 1 ≤ n ∧ n < n + 1 + t.length) by omega),
        if_pos (show n ≤ n ∧ n < n + (t.length + 1) by omega)]
      simp
    · have h0 : ((n + 0) == idx) = false := by
        simp only [Nat.add_zero]
        simpa using hni
      rw [h0]
      by_cases hc : n + 1 ≤ idx ∧ idx < n + 1 + t.length
      · rw [if_pos hc,
          if_pos (show n ≤ idx ∧ idx < n + (t.length + 1) by omega)]
        simp
      · rw [if_neg hc,
          if_neg (show ¬(n ≤ idx ∧ idx < n + (t.length + 1)) by omega)]
        simp

theorem discardAndReplace_ok_shape (g : GameState) (pid : String) (card : Card)
    (pos : Position) (g1 : GameState)
    (hok : discardAndReplace g pid card pos = Except.ok g1) :
    ∃ pi rc, g1 = applyReplace g pid card pos pi rc := by
  unfold discardAndReplace at hok
  simp only [] at hok
  repeat' split at hok
  all_goals first
    | exact ⟨_, _, (Except.ok.inj hok).symm⟩
    | exact absurd hok (by simp)

theorem discardDecision_index_lt (g : GameState) (pid : String) (c : Card)
    (h : g.currentPlayerIndex < g.players.length) :
    (discardDecision g pid c).2.2 < g.players.length := by
  unfold discardDecision
  rcases hca : c.specialAbility with _ | ab
  · exact Nat.mod_lt _ (by omega)
  · cases ab <;> exact h

theorem buildPlayers_length (hostId : String) :
    ∀ (l : List PlayerInfo) (i : Nat), (buildPlayers hostId i l).length = l.length := by
  intro l
  induction l with
  | nil => intro i; rfl
  | cons a t ih => intro i; simp [buildPlayers, ih]

theorem buildPlayers_pointwise (hostId : String) :
    ∀ (l : List PlayerInfo) (i j : Nat) (p : Player),
      (buildPlayers hostId i l).get? j = some p →
        p.isCurrentTurn = ((i + j) == 0) := by
  intro l
  induction l with
  | nil => intro i j p h; simp [buildPlayers] at h
  | cons a t ih =>
    intro i j p h
    cases j with
    | zero =>
      simp only [buildPlayers, List.get?_cons_zero, Option.some.injEq] at h
      rw [← h]
      simp
    | succ j =>
      simp only [buildPlayers, List.get?_cons_succ] at h
      have := ih (i + 1) j p h
      have he : i + (j + 1) = (i + 1) + j := by omega
      rw [he]
      exact this

theorem startGame_turnInv (infos : List PlayerInfo) (hostId : String)
    (deck : List Card) (gameMode : Nat) (hne : infos ≠ []) :
    TurnInv (startGame infos hostId deck gameMode) := by
  have hlen : (startGame infos hostId deck gameMode).players.length = infos.length := by
    show ((buildPlayers hostId 0 infos).map _).length = _
    rw [List.length_map, buildPlayers_length]
  constructor
  · show 0 < (startGame infos hostId deck gameMode).players.length
    rw [hlen]
    exact List.length_pos.2 hne
  · intro j p h
    have h' : ((buildPlayers hostId 0 infos).map
        (fun p => { p with cards :=
          (((dealCards deck (buildPlayers hostId 0 infos) gameMode).2.lookup p.id).getD []) })).get? j =
        some p := h
    rw [List.get?_map] at h'
    cases hg : (buildPlayers hostId 0 infos).get? j with
    | none => rw [hg] at h'; simp at h'
    | some q =>
      rw [hg] at h'
      simp only [Option.map_some'] at h'
      injection h' with h'
      have hq := buildPlayers_pointwise hostId infos 0 j q hg
      rw [← h']
      simpa using hq

theorem recallCards_players_shape (g : GameState) (pid : String)
    (ps : List Position) :
    recallCards g pid ps = g ∨
    ∃ pi player cards', g.players.get? pi = some player ∧
      (recallCards g pid ps).players =
        g.players.set pi { player with cards := cards' } ∧
      (recallCards g pid ps).currentPlayerIndex = g.currentPlayerIndex := by
  unfold recallCards
  split
  · exact Or.inl rfl
  next pi hf =>
    split
    · exact Or.inl rfl
    next player hg =>
      exact Or.inr ⟨pi, player, _, hg, rfl, rfl⟩

theorem callStop_players_shape (g : GameState) (pid : String) :
    callStop g pid = g ∨
    ∃ pi player, g.players.get? pi = some player ∧
      (callStop g pid).players =
        g.players.set pi { player with hasCalledStop := true } ∧
      (callStop g pid).currentPlayerIndex = g.currentPlayerIndex := by
  unfold callStop
  split
  · exact Or.inl rfl
  next pi hf =>
    split
    · exact Or.inl rfl
    next player hg =>
      exact Or.inr ⟨pi, player, hg, rfl, rfl⟩

theorem step_preserves_turnInv (g g' : GameState) (hs : Step g g')
    (hinv : TurnInv g) : TurnInv g' := by
  obtain ⟨hlt, hpt⟩ := hinv
  cases hs with
  | startPlaying => exact ⟨hlt, hpt⟩
  | draw c g2 h =>
    unfold drawFromDeckCompute at h
    cases hd : g.deck with
    | nil => rw [hd] at h; exact absurd h (by simp)
    | cons c0 rest =>
      rw [hd] at h
      simp only [Option.some.injEq, Prod.mk.injEq] at h
      rw [← h.2]
      exact ⟨hlt, hpt⟩
  | pick c g2 h =>
    unfold pickFromDiscardCompute at h
    cases hd : g.discardPile with
    | nil => rw [hd] at h; exact absurd h (by simp)
    | cons c0 rest =>
      rw [hd] at h
      simp only [Option.some.injEq, Prod.mk.injEq] at h
      rw [← h.2]
      exact ⟨hlt, hpt⟩
  | discard pid card =>
    refine ⟨?_, ?_⟩
    · show (discardDecision g pid _).2.2 <
        (setTurnFlagsFrom 0 (discardDecision g pid _).2.2 g.players).length
      rw [setTurnFlagsFrom_length]
      exact discardDecision_index_lt g pid _ hlt
    · exact setTurnFlagsFrom_pointwise g.players _
  | replace pid card pos g2 h =>
    obtain ⟨pi, rc, rfl⟩ := discardAndReplace_ok_shape _ _ _ _ _ h
    refine ⟨?_, ?_⟩
    · show (discardDecision g pid _).2.2 <
        (setTurnFlagsFrom 0 (discardDecision g pid _).2.2
          (modifyPlayerAt g.players pi _)).length
      rw [setTurnFlagsFrom_length, modifyPlayerAt_length]
      exact discardDecision_index_lt g pid _ hlt
    · exact setTurnFlagsFrom_pointwise _ _
  | ability ab pid t =>
    refine ⟨?_, ?_⟩
    · show (g.currentPlayerIndex + 1) % (abilityEffectPlayers g.players ab pid t).length <
        (setTurnFlagsFrom 0 _ (abilityEffectPlayers g.players ab pid t)).length
      rw [setTurnFlagsFrom_length]
      apply Nat.mod_lt
      rw [abilityEffectPlayers_length]
      omega
    · exact setTurnFlagsFrom_pointwise _ _
  | recallAct pid ps =>
    rcases recallCards_players_shape g pid ps with heq | ⟨pi, player, cards', hg, hpl, hidx⟩
    · rw [heq]
      exact ⟨hlt, hpt⟩
    · refine ⟨?_, ?_⟩
      · rw [hidx, hpl, List.length_set]
        exact hlt
      · intro j p h
        rw [hpl] at h
        rw [hidx]
        by_cases hji : pi = j
        · subst hji
          have hpilt : pi < g.players.length := List.get?_eq_some.1 hg |>.choose
          rw [List.get?_set_eq_of_lt _ hpilt] at h
          injection h with h
          rw [← h]
          exact hpt pi player hg
        · rw [List.get?_set_ne _ _ hji] at h
          exact hpt j p h
  | stop pid =>
    rcases callStop_players_shape g pid with heq | ⟨pi, player, hg, hpl, hidx⟩
    · rw [heq]
      exact ⟨hlt, hpt⟩
    · refine ⟨?_, ?_⟩
      · rw [hidx, hpl, List.length_set]
        exact hlt
      · intro j p h
        rw [hpl] at h
        rw [hidx]
        by_cases hji : pi = j
        · subst hji
          have hpilt : pi < g.players.length := List.get?_eq_some.1 hg |>.choose
          rw [List.get?_set_eq_of_lt _ hpilt] at h
          injection h with h
          rw [← h]
          exact hpt pi player hg
        · rw [List.get?_set_ne _ _ hji] at h
          exact hpt j p h
  | finish =>
    refine ⟨?_, ?_⟩
    · show g.currentPlayerIndex < (g.players.map endPlayer).length
      rw [List.length_map]
      exact hlt
    · intro j p h
      show p.isCurrentTurn = (j == g.currentPlayerIndex)
      have h' : (g.players.map endPlayer).get? j = some p := h
      rw [List.get?_map] at h'
      cases hg : g.players.get? j with
      | none => rw [hg] at h'; simp at h'
      | some q =>
        rw [hg] at h'
        simp only [Option.map_some'] at h'
        injection h' with h'
        rw [← h']
        exact hpt j q hg

theorem reachable_turnInv (g : GameState) (hr : Reachable g) : TurnInv g := by
  induction hr with
  | init infos hostId deck gameMode hne => exact startGame_turnInv infos hostId deck gameMode hne
  | step g g' _ hs ih => exact step_preserves_turnInv g g' hs ih

/-- C3 — Single current-player invariant: in every reachable state in
status `playing` or `awaiting-ability-target`, exactly one player has
`isCurrentTurn = true`, and it is `players[currentPlayerIndex]`;
moreover each operation that changes `currentPlayerIndex` (direct
discard, replace, ability resolution) recomputes every `isCurrentTurn`
flag to match its new index. -/
theorem claim3_single_current_player (g : GameState) (hr : Reachable g)
    (hs : g.status = GameStatus.playing ∨
      g.status = GameStatus.awaitingAbilityTarget) :
    g.players.countP (fun p => p.isCurrentTurn) = 1 ∧
    (∃ p, g.players.get? g.currentPlayerIndex = some p ∧ p.isCurrentTurn = true) ∧
    (∀ g0 pid card j p,
      (discardDrawnCard g0 pid card).players.get? j = some p →
      p.isCurrentTurn = (j == (discardDrawnCard g0 pid card).currentPlayerIndex)) ∧
    (∀ g0 ab pid t j p,
      (executeAbility g0 ab pid t).players.get? j = some p →
      p.isCurrentTurn = (j == (executeAbility g0 ab pid t).currentPlayerIndex)) ∧
    (∀ g0 pid card pos g1, discardAndReplace g0 pid card pos = Except.ok g1 →
      ∀ j p, g1.players.get? j = some p →
        p.isCurrentTurn = (j == g1.currentPlayerIndex)) := by
  obtain ⟨hlt, hpt⟩ := reachable_turnInv g hr
  refine ⟨?_, ?_, ?_, ?_, ?_⟩
  · have h := countP_flags g.players 0 g.currentPlayerIndex
      (fun j p hj => by simpa using hpt j p hj)
    rw [h, if_pos (by omega)]
  · have hg : g.players.get? g.currentPlayerIndex =
        some (g.players.get ⟨g.currentPlayerIndex, hlt⟩) := List.get?_eq_get hlt
    refine ⟨_, hg, ?_⟩
    have := hpt g.currentPlayerIndex _ hg
    simpa using this
  · intro g0 pid card j p h
    exact setTurnFlagsFrom_pointwise g0.players _ j p h
  · intro g0 ab pid t j p h
    exact setTurnFlagsFrom_pointwise _ _ j p h
  · intro g0 pid card pos g1 hok j p h
    obtain ⟨pi, rc, rfl⟩ := discardAndReplace_ok_shape g0 pid card pos g1 hok
    exact setTurnFlagsFrom_pointwise _ _ j p h

/-- Witness for C3: the one-player game, moved from `starting` to
`playing` by the deferred transition, has exactly one current player. -/
theorem claim3_single_current_player_witness :
    (setPlaying (startGame [infoSolo] "p1" [] 6)).players.countP
      (fun p => p.isCurrentTurn) = 1 := by
  have hr : Reachable (setPlaying (startGame [infoSolo] "p1" [] 6)) :=
    Reachable.step _ _
      (Reachable.init [infoSolo] "p1" [] 6 (List.cons_ne_nil _ _))
      (Step.startPlaying _)
  exact (claim3_single_current_player _ hr (Or.inl rfl)).1

end Fever
